import Mathlib

/-!
# knocknock: a verification development

A shallow embedding of `main.go` (the HTTPS/HTTP probing pipeline and its
liveness checker) together with theorems about it.

* Part 1 embeds `isValidResponse`.
* Part 2 embeds the derivation of the output file name.
* Part 3 embeds the loop of the output worker.
* Part 4 embeds the goroutines of `main` as a transition system over
  unbuffered channels and wait groups.
-/

namespace Knocknock

/-! ## Part 1: the liveness checker (`isValidResponse`, main.go 172-200) -/

/-- The one field of `http.Response` that `isValidResponse` reads. Go's `int`
status code is an integer; no arithmetic is done on it, only comparisons. -/
structure Response where
  StatusCode : Int
deriving DecidableEq

/-- The pair `(resp, err)` returned by `client.Do(req)`; each component may be nil. -/
structure DoResult where
  resp : Option Response
  err : Option String
deriving DecidableEq

/-- The environment of a probe: what `http.NewRequest("GET", url, nil)` returns
for a URL (a request, here named by its URL, or an error) and what
`client.Do(req)` returns for a request. -/
structure Client where
  NewRequest : String → Except String String
  Do : String → DoResult

/-- The body of `isValidResponse`, statement by statement:
`req, err := http.NewRequest(..); if err != nil { return false }`,
then `resp, err := client.Do(req)`,
then `if resp != nil { drain body; if 200 <= StatusCode < 400 { return true } }`,
then `if err != nil { return false }`, then `return false`.
Draining and closing the body has no influence on the returned value. -/
def isValidResponse (client : Client) (url : String) : Bool :=
  match client.NewRequest url with
  | .error _ => false
  | .ok req =>
    let r := client.Do req
    if (match r.resp with
        | some resp => decide (resp.StatusCode ≥ 200 ∧ resp.StatusCode < 400)
        | none => false) then true
    else if r.err.isSome then false
    else false

/-- A client whose `NewRequest` succeeds on every URL and whose `Do` returns the
given pair on every request. -/
def constClient (r : DoResult) : Client :=
  { NewRequest := fun url => .ok url, Do := fun _ => r }

/-- A client as seen on a redirect loop: the default redirect policy gives up
after ten redirects, and `Do` then returns the last 3xx response together with a
non-nil error. -/
def redirectLoopClient : Client :=
  constClient { resp := some { StatusCode := 302 }, err := some "stopped after 10 redirects" }

/-! ## Part 2: the output file name (main.go 45-47)

A path is modelled as its sequence of characters. Go compares bytes; since
".txt" starts with an ASCII byte, a path ends with the bytes of ".txt" exactly
when it ends with its characters, and the two readings of `TrimSuffix` agree. -/

/-- Go's `strings.HasSuffix`:
`len(s) >= len(suffix) && s[len(s)-len(suffix):] == suffix`. -/
def HasSuffix (s suffix : String) : Bool :=
  decide (s.data.length ≥ suffix.data.length) &&
    decide (s.data.drop (s.data.length - suffix.data.length) = suffix.data)

/-- Go's `strings.TrimSuffix`:
`if HasSuffix(s, suffix) { return s[:len(s)-len(suffix)] }; return s`. -/
def TrimSuffix (s suffix : String) : String :=
  if HasSuffix s suffix then ⟨s.data.take (s.data.length - suffix.data.length)⟩ else s

/-- Line 46: `outputFileName := strings.TrimSuffix(input, ".txt") + "-valid.txt"`. -/
def outputFileName (input : String) : String :=
  TrimSuffix input ".txt" ++ "-valid.txt"

/-! ## Part 3: the output worker loop (main.go 131-140) -/

/-- What one call of `writer.WriteString` reports: success, or an error after
`written` characters were accepted. -/
inductive WriteResult
  | ok
  | failed (written : Nat)
deriving DecidableEq

/-- Observable effects of the output worker, in program order. -/
inductive Event
  | write (s : String)
  | echo (s : String)
  | logged (s : String)
deriving DecidableEq

/-- State threaded through the loop of the output worker: the number of
`WriteString` calls made so far, the text accepted by the result sink, and the
trace of effects. -/
structure Sink where
  calls : Nat
  content : String
  trace : List Event
deriving DecidableEq

/-- One iteration of `for o := range output`: `writer.WriteString(o + "\n")`,
then `fmt.Println(o)`, then the error is logged when there is one. The outcome
of the k-th `WriteString` call is given by `outcome k`. -/
def outputIter (outcome : Nat → WriteResult) (k : Sink) (o : String) : Sink :=
  let line := o ++ "\n"
  match outcome k.calls with
  | .ok =>
      { calls := k.calls + 1
        content := k.content ++ line
        trace := k.trace ++ [.write line, .echo o] }
  | .failed n =>
      { calls := k.calls + 1
        content := k.content ++ ⟨line.data.take n⟩
        trace := k.trace ++ [.write line, .echo o, .logged "Failed to write to output file"] }

/-- The whole loop over the values delivered on `output`, in delivery order. -/
def outputLoop (outcome : Nat → WriteResult) (k : Sink) (delivered : List String) : Sink :=
  delivered.foldl (outputIter outcome) k

/-- The sink before the first iteration. -/
def Sink.empty : Sink := { calls := 0, content := "", trace := [] }

/-- The write attempts of a trace, in order. -/
def writesOf : List Event → List String
  | [] => []
  | .write s :: es => s :: writesOf es
  | _ :: es => writesOf es

/-- The lines echoed to the progress sink, in order. -/
def echoesOf : List Event → List String
  | [] => []
  | .echo s :: es => s :: echoesOf es
  | _ :: es => echoesOf es

/-- The trace with the log lines removed. -/
def withoutLogs : List Event → List Event
  | [] => []
  | .logged _ :: es => withoutLogs es
  | e :: es => e :: withoutLogs es

/-- Concatenation of every URL followed by a newline. -/
def joinLines : List String → String
  | [] => ""
  | o :: os => (o ++ "\n") ++ joinLines os

/-- The write attempt and the echo the specification asks for, URL by URL. -/
def attemptsFor : List String → List Event
  | [] => []
  | o :: os => .write (o ++ "\n") :: .echo o :: attemptsFor os

/-! ## Part 4: the pipeline of `main` (main.go 83-166)

Every goroutine is a small control-flow automaton; a state of the program is the
product of their control points, the three channels (all unbuffered, so only
their closed flag is state), the three wait-group counters, and three history
variables recording what crossed `httpsURLs`, `httpURLs` and `output`. A
transition is the execution of one statement by one goroutine, chosen by the
scheduler:

* a send and the matching receive on an unbuffered channel happen together, as
  one transition of the two goroutines involved;
* a receive on a closed channel ends the range loop, and the `Done` that follows
  the loop belongs to the same transition;
* `wg.Add(1)` and the `go` statement after it are one transition of the main
  goroutine, and a started goroutine stands at its first blocking statement;
* a send on a closed channel, a close of a closed channel and a `Done` on a zero
  counter are run-time panics: they end the run in a state with a fault;
* a call of `isValidResponse` is one transition, and its result is a function of
  the URL (the network is a fixed oracle);
* what the output worker does with a received value (Part 3) involves no other
  goroutine and is not part of the state.

The model starts at line 88 and takes the lines read from the input file as
given: the failure of `os.Open` ends the program before any hostname is sent. -/

/-- Run-time inputs of `main`: the value of the `-c` flag (a Go `int`; the only
arithmetic on it is `concurrency/2`, which cannot overflow), the lines
`sc.Scan()` yields from the opened input file, Go's `strings.ToLower`, and the
network. -/
structure Cfg where
  concurrency : Int
  lines : List String
  lower : String → String
  client : Client

/-- Control points of an HTTPS worker (main.go 93-102). -/
inductive HttpsWorker
  /-- Blocked at `for url := range httpsURLs`. -/
  | recv
  /-- Holding `url`, about to evaluate `isValidResponse(client, "https://" + url)`. -/
  | probe (url : String)
  /-- Blocked at `output <- target`. -/
  | sendOut (target url : String)
  /-- Blocked at `httpURLs <- url`. -/
  | forward (url : String)
  /-- The range loop ended and the deferred `httpsWG.Done()` ran. -/
  | exited
deriving DecidableEq

/-- Control points of an HTTP worker (main.go 110-119). -/
inductive HttpWorker
  /-- Blocked at `for url := range httpURLs`. -/
  | recv
  /-- Holding `url`, about to evaluate `isValidResponse(client, "http://" + url)`. -/
  | probe (url : String)
  /-- Blocked at `output <- target`. -/
  | sendOut (target : String)
  /-- The range loop ended and the deferred `httpWG.Done()` ran. -/
  | exited
deriving DecidableEq

/-- Control points of a closer goroutine `go func() { wg.Wait(); close(ch) }()`
(main.go 123-126 and 143-146). -/
inductive Closer
  | notSpawned
  /-- Blocked in `wg.Wait()`. -/
  | waiting
  /-- `wg.Wait()` returned, about to `close(ch)`. -/
  | closing
  | done
deriving DecidableEq

/-- Control points of the output worker (main.go 131-140). -/
inductive OutputWorker
  | notSpawned
  /-- Blocked at `for o := range output`. -/
  | recv
  /-- The range loop ended and `outputWG.Done()` ran. -/
  | exited
deriving DecidableEq

/-- Control points of the main goroutine from line 88 on. -/
inductive Main
  /-- At the test `i < concurrency/2` of the first loop (line 90). -/
  | spawnHttps (i : Int)
  /-- At the test `i < concurrency/2` of the second loop (line 107). -/
  | spawnHttp (i : Int)
  /-- Before the `go` statement of line 123. -/
  | spawnCloseHttp
  /-- Before `outputWG.Add(1)` and the `go` statement of lines 130-131. -/
  | spawnOutput
  /-- Before the `go` statement of line 143. -/
  | spawnCloseOutput
  /-- At `sc.Scan()` (line 156) with the lines still to be read. -/
  | scan (rest : List String)
  /-- Blocked at `httpsURLs <- domain` (line 159). -/
  | send (domain : String) (rest : List String)
  /-- Before `close(httpsURLs)` (line 163). -/
  | closeHttps
  /-- Blocked in `outputWG.Wait()` (line 166). -/
  | wait
  /-- Past `outputWG.Wait()`: the run is complete and the process exits. -/
  | done
deriving DecidableEq

/-- Run-time panics of the Go runtime that the statements of `main` can raise. -/
inductive Fault
  | sendOnClosed
  | closeOfClosed
  | negativeWaitGroup
deriving DecidableEq

/-- A state of the running program. `submitted`, `forwarded` and `received` are
history variables: the values the HTTPS workers have received from `httpsURLs`,
the values the HTTP workers have received from `httpURLs`, and the values the
output worker has received from `output`, each in order of receipt. -/
structure State where
  main : Main
  https : List HttpsWorker
  http : List HttpWorker
  closeHttp : Closer
  outputWorker : OutputWorker
  closeOutput : Closer
  httpsWG : Nat
  httpWG : Nat
  outputWG : Nat
  httpsURLsClosed : Bool
  httpURLsClosed : Bool
  outputClosed : Bool
  submitted : List String
  forwarded : List String
  received : List String
  fault : Option Fault
deriving DecidableEq

/-- The state at line 88: channels made and open, no goroutine started. -/
def State.init : State :=
  { main := .spawnHttps 0
    https := []
    http := []
    closeHttp := .notSpawned
    outputWorker := .notSpawned
    closeOutput := .notSpawned
    httpsWG := 0
    httpWG := 0
    outputWG := 0
    httpsURLsClosed := false
    httpURLsClosed := false
    outputClosed := false
    submitted := []
    forwarded := []
    received := []
    fault := none }

/-- The program crashes with a run-time panic. -/
def State.panic (s : State) (f : Fault) : State :=
  { s with fault := some f }

/-- The main goroutine executes its next statement, when it is not blocked. -/
def mainStep (cfg : Cfg) (s : State) : Option State :=
  match s.main with
  | .spawnHttps i =>
      if i < cfg.concurrency.tdiv 2 then
        some { s with main := .spawnHttps (i + 1)
                      httpsWG := s.httpsWG + 1
                      https := s.https ++ [.recv] }
      else some { s with main := .spawnHttp 0 }
  | .spawnHttp i =>
      if i < cfg.concurrency.tdiv 2 then
        some { s with main := .spawnHttp (i + 1)
                      httpWG := s.httpWG + 1
                      http := s.http ++ [.recv] }
      else some { s with main := .spawnCloseHttp }
  | .spawnCloseHttp => some { s with main := .spawnOutput, closeHttp := .waiting }
  | .spawnOutput =>
      some { s with main := .spawnCloseOutput
                    outputWG := s.outputWG + 1
                    outputWorker := .recv }
  | .spawnCloseOutput => some { s with main := .scan cfg.lines, closeOutput := .waiting }
  | .scan [] => some { s with main := .closeHttps }
  | .scan (l :: rest) => some { s with main := .send (cfg.lower l) rest }
  | .send _ _ => if s.httpsURLsClosed then some (s.panic .sendOnClosed) else none
  | .closeHttps =>
      if s.httpsURLsClosed then some (s.panic .closeOfClosed)
      else some { s with main := .wait, httpsURLsClosed := true }
  | .wait => if s.outputWG = 0 then some { s with main := .done } else none
  | .done => none

/-- HTTPS worker `i` executes its next statement. A receive from `httpsURLs`
needs the main goroutine blocked in its send; a send on `output` needs the
output worker blocked in its receive. The send on `httpURLs` is `forwardStep`. -/
def httpsStep (cfg : Cfg) (s : State) (i : Nat) : Option State :=
  match s.https[i]? with
  | some .recv =>
      if s.httpsURLsClosed then
        if s.httpsWG = 0 then some (s.panic .negativeWaitGroup)
        else some { s with https := s.https.set i .exited, httpsWG := s.httpsWG - 1 }
      else
        match s.main with
        | .send domain rest =>
            some { s with main := .scan rest
                          https := s.https.set i (.probe domain)
                          submitted := s.submitted ++ [domain] }
        | _ => none
  | some (.probe url) =>
      if isValidResponse cfg.client ("https://" ++ url) then
        some { s with https := s.https.set i (.sendOut ("https://" ++ url) url) }
      else some { s with https := s.https.set i (.forward url) }
  | some (.sendOut target url) =>
      if s.outputClosed then some (s.panic .sendOnClosed)
      else
        match s.outputWorker with
        | .recv =>
            some { s with https := s.https.set i (.forward url)
                          received := s.received ++ [target] }
        | _ => none
  | some (.forward _) => if s.httpURLsClosed then some (s.panic .sendOnClosed) else none
  | some .exited => none
  | none => none

/-- The hand-off on `httpURLs`: HTTPS worker `i`, blocked in `httpURLs <- url`,
and HTTP worker `j`, blocked in its receive, proceed together. -/
def forwardStep (s : State) (i j : Nat) : Option State :=
  match s.https[i]?, s.http[j]? with
  | some (.forward url), some .recv =>
      if s.httpURLsClosed then none
      else
        some { s with https := s.https.set i .recv
                      http := s.http.set j (.probe url)
                      forwarded := s.forwarded ++ [url] }
  | _, _ => none

/-- HTTP worker `j` executes its next statement. -/
def httpStep (cfg : Cfg) (s : State) (j : Nat) : Option State :=
  match s.http[j]? with
  | some .recv =>
      if s.httpURLsClosed then
        if s.httpWG = 0 then some (s.panic .negativeWaitGroup)
        else some { s with http := s.http.set j .exited, httpWG := s.httpWG - 1 }
      else none
  | some (.probe url) =>
      if isValidResponse cfg.client ("http://" ++ url) then
        some { s with http := s.http.set j (.sendOut ("http://" ++ url)) }
      else some { s with http := s.http.set j .recv }
  | some (.sendOut target) =>
      if s.outputClosed then some (s.panic .sendOnClosed)
      else
        match s.outputWorker with
        | .recv =>
            some { s with http := s.http.set j .recv
                          received := s.received ++ [target] }
        | _ => none
  | some .exited => none
  | none => none

/-- The goroutine of lines 123-126: `httpsWG.Wait()` then `close(httpURLs)`. -/
def closeHttpStep (s : State) : Option State :=
  match s.closeHttp with
  | .waiting => if s.httpsWG = 0 then some { s with closeHttp := .closing } else none
  | .closing =>
      if s.httpURLsClosed then some (s.panic .closeOfClosed)
      else some { s with closeHttp := .done, httpURLsClosed := true }
  | _ => none

/-- The goroutine of lines 143-146: `httpWG.Wait()` then `close(output)`. -/
def closeOutputStep (s : State) : Option State :=
  match s.closeOutput with
  | .waiting => if s.httpWG = 0 then some { s with closeOutput := .closing } else none
  | .closing =>
      if s.outputClosed then some (s.panic .closeOfClosed)
      else some { s with closeOutput := .done, outputClosed := true }
  | _ => none

/-- The output worker leaves its range loop once `output` is closed, and calls
`outputWG.Done()`. Its receives are part of the senders' transitions. -/
def outputStep (s : State) : Option State :=
  match s.outputWorker with
  | .recv =>
      if s.outputClosed then
        if s.outputWG = 0 then some (s.panic .negativeWaitGroup)
        else some { s with outputWorker := .exited, outputWG := s.outputWG - 1 }
      else none
  | _ => none

/-- The choice the scheduler makes: which goroutine runs (and, for the hand-off
on `httpURLs`, which receiver is paired with the sender). -/
inductive Action
  | main
  | https (i : Nat)
  | forward (i j : Nat)
  | http (j : Nat)
  | closeHttp
  | output
  | closeOutput
deriving DecidableEq

/-- One transition. There is none after a panic, nor after the main goroutine
has returned (the process has exited); `none` also means the chosen goroutine is
blocked. -/
def step (cfg : Cfg) (s : State) (a : Action) : Option State :=
  if s.fault ≠ none ∨ s.main = .done then none
  else
    match a with
    | .main => mainStep cfg s
    | .https i => httpsStep cfg s i
    | .forward i j => forwardStep s i j
    | .http j => httpStep cfg s j
    | .closeHttp => closeHttpStep s
    | .output => outputStep s
    | .closeOutput => closeOutputStep s

/-- Run a schedule from a state; `none` when some chosen goroutine cannot move. -/
def exec (cfg : Cfg) : State → List Action → Option State
  | s, [] => some s
  | s, a :: as =>
      match step cfg s a with
      | some s' => exec cfg s' as
      | none => none

/-- The states some schedule reaches from the initial state. -/
def Reachable (cfg : Cfg) (s : State) : Prop :=
  ∃ as : List Action, exec cfg State.init as = some s

/-- The pool size as the specification words it: max(0, c / 2), the concurrency
level integer-divided by two (truncating), and no workers when that is
negative. The program itself never computes this number: it runs the loops of
`mainStep`. -/
def poolSize (c : Int) : Nat :=
  (max 0 (c.tdiv 2)).toNat

/-- The set of validated URLs the specification predicts for an input. -/
def expectedURL (cfg : Cfg) (u : String) : Prop :=
  (∃ h ∈ cfg.lines, u = "https://" ++ cfg.lower h ∧ isValidResponse cfg.client u = true) ∨
  (∃ h ∈ cfg.lines, u = "http://" ++ cfg.lower h ∧ isValidResponse cfg.client u = true)

/-! ### Bookkeeping functions used by the invariants -/

/-- Position of the main goroutine along its straight-line code. -/
def Main.phase : Main → Nat
  | .spawnHttps _ => 0
  | .spawnHttp _ => 1
  | .spawnCloseHttp => 2
  | .spawnOutput => 3
  | .spawnCloseOutput => 4
  | .scan _ => 5
  | .send _ _ => 5
  | .closeHttps => 6
  | .wait => 7
  | .done => 8

/-- The lower-cased hostnames the main goroutine has still to submit. -/
def Main.hosts (cfg : Cfg) : Main → List String
  | .spawnHttps _ => cfg.lines.map cfg.lower
  | .spawnHttp _ => cfg.lines.map cfg.lower
  | .spawnCloseHttp => cfg.lines.map cfg.lower
  | .spawnOutput => cfg.lines.map cfg.lower
  | .spawnCloseOutput => cfg.lines.map cfg.lower
  | .scan rest => rest.map cfg.lower
  | .send domain rest => domain :: rest.map cfg.lower
  | .closeHttps => []
  | .wait => []
  | .done => []

/-- One for a worker that has not called `httpsWG.Done()`. -/
def HttpsWorker.alive : HttpsWorker → Nat
  | .exited => 0
  | _ => 1

/-- One for a worker that has not called `httpWG.Done()`. -/
def HttpWorker.alive : HttpWorker → Nat
  | .exited => 0
  | _ => 1

/-- Occurrences of `x` among the hostnames an HTTPS worker holds and has still
to forward (it holds at most one). -/
def HttpsWorker.held (x : String) : HttpsWorker → Nat
  | .probe url => [url].count x
  | .sendOut _ url => [url].count x
  | .forward url => [url].count x
  | _ => 0

/-- What the HTTPS probe of a hostname contributes to the output. -/
def httpsOut (cfg : Cfg) (h : String) : List String :=
  if isValidResponse cfg.client ("https://" ++ h) then ["https://" ++ h] else []

/-- What the HTTP probe of a hostname contributes to the output. -/
def httpOut (cfg : Cfg) (h : String) : List String :=
  if isValidResponse cfg.client ("http://" ++ h) then ["http://" ++ h] else []

/-- Number of occurrences of `x` that the given hostnames contribute to the
output, over both probes. -/
def owedBy (cfg : Cfg) (x : String) (hs : List String) : Nat :=
  (hs.map (fun h => (httpsOut cfg h).count x + (httpOut cfg h).count x)).sum

/-- Occurrences of `x` an HTTPS worker will still cause on `output`. -/
def HttpsWorker.owed (cfg : Cfg) (x : String) : HttpsWorker → Nat
  | .probe url => (httpsOut cfg url).count x + (httpOut cfg url).count x
  | .sendOut target url => [target].count x + (httpOut cfg url).count x
  | .forward url => (httpOut cfg url).count x
  | _ => 0

/-- Occurrences of `x` an HTTP worker will still cause on `output`. -/
def HttpWorker.owed (cfg : Cfg) (x : String) : HttpWorker → Nat
  | .probe url => (httpOut cfg url).count x
  | .sendOut target => [target].count x
  | _ => 0

/-- The invariant of the pipeline. -/
structure Inv (cfg : Cfg) (s : State) : Prop where
  noFault : s.fault = none
  wgHttps : s.httpsWG = (s.https.map HttpsWorker.alive).sum
  wgHttp : s.httpWG = (s.http.map HttpWorker.alive).sum
  wgOut : s.outputWG = if s.outputWorker = .recv then 1 else 0
  loopHttps : ∀ i, s.main = .spawnHttps i →
    0 ≤ i ∧ i ≤ max 0 (cfg.concurrency.tdiv 2) ∧ (s.https.length : Int) = i ∧ s.http = []
  loopHttp : ∀ i, s.main = .spawnHttp i →
    0 ≤ i ∧ i ≤ max 0 (cfg.concurrency.tdiv 2) ∧ (s.http.length : Int) = i
  lenHttps : 1 ≤ s.main.phase → s.https.length = poolSize cfg.concurrency
  lenHttp : 2 ≤ s.main.phase → s.http.length = poolSize cfg.concurrency
  spawnedCloseHttp : s.closeHttp = .notSpawned ↔ s.main.phase ≤ 2
  spawnedOutput : s.outputWorker = .notSpawned ↔ s.main.phase ≤ 3
  spawnedCloseOutput : s.closeOutput = .notSpawned ↔ s.main.phase ≤ 4
  closedHttps : s.httpsURLsClosed = true ↔ 7 ≤ s.main.phase
  closedHttp : s.httpURLsClosed = true ↔ s.closeHttp = .done
  closedOutput : s.outputClosed = true ↔ s.closeOutput = .done
  waitedHttps : s.closeHttp = .closing ∨ s.closeHttp = .done → s.httpsWG = 0
  waitedHttp : s.closeOutput = .closing ∨ s.closeOutput = .done → s.httpWG = 0
  exitedHttps : HttpsWorker.exited ∈ s.https → s.httpsURLsClosed = true
  exitedHttp : HttpWorker.exited ∈ s.http → s.httpURLsClosed = true
  exitedOutput : s.outputWorker = .exited → s.outputClosed = true
  waitedOutput : s.main = .done → s.outputWG = 0
  submittedLog : s.submitted ++ s.main.hosts cfg = cfg.lines.map cfg.lower
  hostsBalance : ∀ x, s.forwarded.count x + (s.https.map (HttpsWorker.held x)).sum +
    (s.main.hosts cfg).count x = (cfg.lines.map cfg.lower).count x
  outputBalance : ∀ x, s.received.count x + (s.https.map (HttpsWorker.owed cfg x)).sum +
    (s.http.map (HttpWorker.owed cfg x)).sum + owedBy cfg x (s.main.hosts cfg) =
    owedBy cfg x (cfg.lines.map cfg.lower)

/-! ### A concrete run, used to instantiate the theorems -/

/-- Lower-casing of the ASCII letters; on ASCII text it agrees with Go's
`strings.ToLower`. -/
def asciiLower (s : String) : String :=
  ⟨s.data.map Char.toLower⟩

/-- The network of the example scenario: `https://a.example` answers 200,
`http://b.example` answers 301, everything else is unreachable. -/
def exampleClient : Client :=
  { NewRequest := fun url => .ok url
    Do := fun req =>
      if req = "https://a.example" then { resp := some { StatusCode := 200 }, err := none }
      else if req = "http://b.example" then { resp := some { StatusCode := 301 }, err := none }
      else { resp := none, err := some "dial tcp: connection refused" } }

/-- The example scenario with one worker per pool. -/
def exampleCfg : Cfg :=
  { concurrency := 2
    lines := ["a.example", "b.example"]
    lower := asciiLower
    client := exampleClient }

/-- A complete schedule of the example scenario. -/
def exampleSchedule : List Action :=
  [.main, .main, .main, .main, .main, .main, .main, .main,
   .https 0, .https 0, .https 0, .forward 0 0, .main, .https 0, .http 0, .https 0,
   .forward 0 0, .http 0, .http 0, .main, .main, .https 0, .closeHttp, .closeHttp,
   .http 0, .closeOutput, .closeOutput, .output, .main]

/-- The state the example schedule ends in. -/
def exampleFinal : State :=
  { main := .done
    https := [.exited]
    http := [.exited]
    closeHttp := .done
    outputWorker := .exited
    closeOutput := .done
    httpsWG := 0
    httpWG := 0
    outputWG := 0
    httpsURLsClosed := true
    httpURLsClosed := true
    outputClosed := true
    submitted := ["a.example", "b.example"]
    forwarded := ["a.example", "b.example"]
    received := ["https://a.example", "http://b.example"]
    fault := none }

/-! ### A termination measure -/

/-- Steps the main goroutine has still to take, weighted so that every hand-off
it takes part in lowers the total measure. -/
def Main.rank (cfg : Cfg) : Main → Nat
  | .spawnHttps i =>
      7 * cfg.lines.length + 13 + 2 * (cfg.concurrency.tdiv 2).toNat +
        2 * (cfg.concurrency.tdiv 2 - i).toNat
  | .spawnHttp i => 7 * cfg.lines.length + 12 + 2 * (cfg.concurrency.tdiv 2 - i).toNat
  | .spawnCloseHttp => 7 * cfg.lines.length + 11
  | .spawnOutput => 7 * cfg.lines.length + 8
  | .spawnCloseOutput => 7 * cfg.lines.length + 6
  | .scan rest => 7 * rest.length + 3
  | .send _ rest => 7 * rest.length + 9
  | .closeHttps => 2
  | .wait => 1
  | .done => 0

/-- Steps an HTTPS worker has still to take on the hostname it holds. -/
def HttpsWorker.rank : HttpsWorker → Nat
  | .recv => 1
  | .probe _ => 6
  | .sendOut _ _ => 5
  | .forward _ => 4
  | .exited => 0

/-- Steps an HTTP worker has still to take on the hostname it holds. -/
def HttpWorker.rank : HttpWorker → Nat
  | .recv => 1
  | .probe _ => 3
  | .sendOut _ => 2
  | .exited => 0

/-- Steps a closer goroutine has still to take. -/
def Closer.rank : Closer → Nat
  | .notSpawned => 2
  | .waiting => 2
  | .closing => 1
  | .done => 0

/-- Steps the output worker has still to take on its own. -/
def OutputWorker.rank : OutputWorker → Nat
  | .notSpawned => 1
  | .recv => 1
  | .exited => 0

/-- A bound on the number of transitions left in a state. -/
def measure (cfg : Cfg) (s : State) : Nat :=
  s.main.rank cfg + (s.https.map HttpsWorker.rank).sum + (s.http.map HttpWorker.rank).sum +
    s.closeHttp.rank + s.closeOutput.rank + s.outputWorker.rank +
    (if s.fault = none then 1 else 0)

/-- Some goroutine can move. -/
def Enabled (cfg : Cfg) (s : State) : Prop :=
  ∃ a s', step cfg s a = some s'


/-! ### A run with concurrency 1 -/

/-- One hostname, concurrency level 1. -/
def stalledCfg : Cfg :=
  { concurrency := 1
    lines := ["a.example"]
    lower := asciiLower
    client := exampleClient }

/-- A schedule of `stalledCfg` after which nothing can move. -/
def stalledSchedule : List Action :=
  [.main, .main, .main, .main, .main, .main,
   .closeHttp, .closeHttp, .closeOutput, .closeOutput, .output]

/-- The state `stalledSchedule` ends in. -/
def stalledState : State :=
  { main := .send "a.example" []
    https := []
    http := []
    closeHttp := .done
    outputWorker := .exited
    closeOutput := .done
    httpsWG := 0
    httpWG := 0
    outputWG := 0
    httpsURLsClosed := false
    httpURLsClosed := true
    outputClosed := true
    submitted := []
    forwarded := []
    received := []
    fault := none }

/-- What holds throughout a run with no workers and first input line `h`:
nothing is handed over and the main goroutine is at or before the send of the
first hostname. -/
structure Stalled (cfg : Cfg) (h : String) (t : List String) (s : State) : Prop where
  noHttps : s.https = []
  noHttp : s.http = []
  noSubmitted : s.submitted = []
  noForwarded : s.forwarded = []
  noReceived : s.received = []
  mainAt : s.main.phase < 5 ∨ s.main = .scan (h :: t) ∨ s.main = .send (cfg.lower h) t

/-! ## Theorems: the liveness checker -/

/-- The value of `isValidResponse` once request construction has succeeded. -/
theorem isValidResponse_ok (client : Client) (url req : String)
    (hreq : client.NewRequest url = .ok req) :
    isValidResponse client url = true ↔
      ∃ resp, (client.Do req).resp = some resp ∧
        200 ≤ resp.StatusCode ∧ resp.StatusCode < 400 := by
  unfold isValidResponse
  rw [hreq]
  cases hr : (client.Do req).resp with
  | none => simp [hr]
  | some resp => simp [hr]

/-- C1: once the GET is issued (request construction succeeded), whatever pair
`client.Do` returns (a response or none, an error or none), `isValidResponse` is
true exactly when a response was received and its status code s satisfies
200 <= s < 400; in particular codes 200 and 399 give true and codes 199 and 400
give false. -/
theorem isValidResponse_iff_status (client : Client) (url req : String)
    (hreq : client.NewRequest url = .ok req) :
    (isValidResponse client url = true ↔
      ∃ resp, (client.Do req).resp = some resp ∧
        200 ≤ resp.StatusCode ∧ resp.StatusCode < 400) ∧
    ((client.Do req).resp = some { StatusCode := 200 } → isValidResponse client url = true) ∧
    ((client.Do req).resp = some { StatusCode := 399 } → isValidResponse client url = true) ∧
    ((client.Do req).resp = some { StatusCode := 199 } → isValidResponse client url = false) ∧
    ((client.Do req).resp = some { StatusCode := 400 } → isValidResponse client url = false) := by
  have key := isValidResponse_ok client url req hreq
  refine ⟨key, ?_, ?_, ?_, ?_⟩
  · intro h
    exact key.mpr ⟨_, h, by decide, by decide⟩
  · intro h
    exact key.mpr ⟨_, h, by decide, by decide⟩
  · intro h
    rw [Bool.eq_false_iff]
    intro ht
    obtain ⟨r, hr, h200, _⟩ := key.mp ht
    rw [h] at hr
    cases hr
    exact absurd h200 (by decide)
  · intro h
    rw [Bool.eq_false_iff]
    intro ht
    obtain ⟨r, hr, _, h400⟩ := key.mp ht
    rw [h] at hr
    cases hr
    exact absurd h400 (by decide)

/-- C1 at a concrete client: a 301 response that comes with no error. -/
theorem isValidResponse_iff_status_witness :
    isValidResponse (constClient { resp := some { StatusCode := 301 }, err := none })
      "http://b.example" = true :=
  (isValidResponse_iff_status (constClient { resp := some { StatusCode := 301 }, err := none })
    "http://b.example" "http://b.example" rfl).1.mpr ⟨{ StatusCode := 301 }, rfl, by decide, by decide⟩

/-- C2, as stated, fails: on a redirect loop `client.Do` returns a non-nil error
together with the last 3xx response, and `isValidResponse` returns true. -/
theorem isValidResponse_error_with_redirect :
    (redirectLoopClient.Do "http://loop.example").err ≠ none ∧
    redirectLoopClient.NewRequest "http://loop.example" = .ok "http://loop.example" ∧
    isValidResponse redirectLoopClient "http://loop.example" = true := by
  refine ⟨?_, rfl, ?_⟩
  · simp [redirectLoopClient, constClient]
  · simp [isValidResponse, redirectLoopClient, constClient]

/-- C2, amended: `isValidResponse` returns false when request construction
reports an error, and when `client.Do` returns a non-nil error with no response
or with a response whose status code lies outside [200, 400). -/
theorem isValidResponse_request_failure (client : Client) (url : String)
    (h : (∃ e, client.NewRequest url = .error e) ∨
      (∃ req, client.NewRequest url = .ok req ∧ (client.Do req).err ≠ none ∧
        ∀ r, (client.Do req).resp = some r → r.StatusCode < 200 ∨ 400 ≤ r.StatusCode)) :
    isValidResponse client url = false := by
  rcases h with ⟨e, he⟩ | ⟨req, hreq, _, hst⟩
  · simp [isValidResponse, he]
  · rw [Bool.eq_false_iff]
    intro ht
    obtain ⟨r, hr, h200, h400⟩ := (isValidResponse_ok client url req hreq).mp ht
    rcases hst r hr with h | h <;> omega

/-- A client for which `NewRequest` fails on every URL. -/
theorem isValidResponse_request_failure_witness :
    isValidResponse { NewRequest := fun _ => .error "invalid URL", Do := fun _ => ⟨none, none⟩ }
      "http://%zz" = false ∧
    isValidResponse (constClient { resp := some { StatusCode := 500 }, err := some "EOF" })
      "http://a.example" = false :=
  ⟨isValidResponse_request_failure _ _ (Or.inl ⟨"invalid URL", rfl⟩),
   isValidResponse_request_failure _ _
     (Or.inr ⟨"http://a.example", rfl, by simp [constClient], by
       intro r hr
       simp [constClient] at hr
       subst hr
       right
       decide⟩)⟩

/-! ## Theorems: the output file name -/

theorem hasSuffix_iff (s suffix : String) :
    HasSuffix s suffix = true ↔ ∃ q : List Char, s.data = q ++ suffix.data := by
  unfold HasSuffix
  simp only [Bool.and_eq_true, decide_eq_true_eq]
  constructor
  · rintro ⟨_, hdrop⟩
    refine ⟨s.data.take (s.data.length - suffix.data.length), ?_⟩
    conv_lhs => rw [← List.take_append_drop (s.data.length - suffix.data.length) s.data]
    rw [hdrop]
  · rintro ⟨q, hq⟩
    rw [hq]
    simp

theorem trimSuffix_append (q : List Char) (suffix : String) :
    TrimSuffix ⟨q ++ suffix.data⟩ suffix = ⟨q⟩ := by
  have h : HasSuffix ⟨q ++ suffix.data⟩ suffix = true := (hasSuffix_iff _ _).mpr ⟨q, rfl⟩
  unfold TrimSuffix
  rw [if_pos h]
  simp

theorem outputFileName_length (p : String) :
    (outputFileName p).data.length ≠ p.data.length := by
  unfold outputFileName TrimSuffix
  split
  · rename_i h
    obtain ⟨q, hq⟩ := (hasSuffix_iff _ _).mp h
    have h4 : (".txt" : String).data.length = 4 := by decide
    have h10 : ("-valid.txt" : String).data.length = 10 := by decide
    simp only [String.data_append, List.length_append, List.length_take, hq, h4, h10]
    omega
  · have h10 : ("-valid.txt" : String).data.length = 10 := by decide
    simp only [String.data_append, List.length_append, h10]
    omega

/-- C10: for every input path p, the output name
`TrimSuffix(p, ".txt") + "-valid.txt"` ends with "-valid.txt" and differs from p;
when p ends with ".txt", say p = q + ".txt", it is q + "-valid.txt" (that one
trailing ".txt" replaced), and otherwise it is p with "-valid.txt" appended. -/
theorem outputFileName_spec (p q : String) :
    HasSuffix (outputFileName p) "-valid.txt" = true ∧
    outputFileName p ≠ p ∧
    (HasSuffix p ".txt" = true → ∃ r : String, p = r ++ ".txt") ∧
    (p = q ++ ".txt" → outputFileName p = q ++ "-valid.txt") ∧
    (HasSuffix p ".txt" = false → outputFileName p = p ++ "-valid.txt") := by
  refine ⟨?_, ?_, ?_, ?_, ?_⟩
  · exact (hasSuffix_iff _ _).mpr ⟨(TrimSuffix p ".txt").data, by simp [outputFileName]⟩
  · intro h
    exact outputFileName_length p (by rw [h])
  · intro h
    obtain ⟨r, hr⟩ := (hasSuffix_iff _ _).mp h
    refine ⟨⟨r⟩, ?_⟩
    apply String.ext
    simpa using hr
  · intro h
    subst h
    unfold outputFileName
    have : q ++ ".txt" = ⟨q.data ++ (".txt" : String).data⟩ := by
      apply String.ext
      simp
    rw [this, trimSuffix_append]
  · intro h
    unfold outputFileName TrimSuffix
    simp [h]

/-- C10 at `hosts.txt` and at a path without the extension. -/
theorem outputFileName_spec_witness :
    outputFileName "hosts.txt" = "hosts" ++ "-valid.txt" ∧
    outputFileName "hosts" = "hosts" ++ "-valid.txt" :=
  ⟨(outputFileName_spec "hosts.txt" "hosts").2.2.2.1 (by decide),
   (outputFileName_spec "hosts" "").2.2.2.2 (by decide)⟩

/-! ## Theorems: the output worker loop -/

theorem withoutLogs_append (a b : List Event) :
    withoutLogs (a ++ b) = withoutLogs a ++ withoutLogs b := by
  induction a with
  | nil => rfl
  | cons e es ih => cases e <;> simp [withoutLogs, ih]

theorem writesOf_append (a b : List Event) :
    writesOf (a ++ b) = writesOf a ++ writesOf b := by
  induction a with
  | nil => rfl
  | cons e es ih => cases e <;> simp [writesOf, ih]

theorem echoesOf_append (a b : List Event) :
    echoesOf (a ++ b) = echoesOf a ++ echoesOf b := by
  induction a with
  | nil => rfl
  | cons e es ih => cases e <;> simp [echoesOf, ih]

theorem outputIter_calls (outcome : Nat → WriteResult) (k : Sink) (o : String) :
    (outputIter outcome k o).calls = k.calls + 1 := by
  unfold outputIter
  cases outcome k.calls <;> rfl

theorem outputIter_withoutLogs (outcome : Nat → WriteResult) (k : Sink) (o : String) :
    withoutLogs (outputIter outcome k o).trace =
      withoutLogs k.trace ++ [.write (o ++ "\n"), .echo o] := by
  unfold outputIter
  cases outcome k.calls <;> simp [withoutLogs_append, withoutLogs]

theorem outputLoop_calls (outcome : Nat → WriteResult) (delivered : List String) (k : Sink) :
    (outputLoop outcome k delivered).calls = k.calls + delivered.length := by
  induction delivered generalizing k with
  | nil => rfl
  | cons o os ih =>
    show (outputLoop outcome (outputIter outcome k o) os).calls = _
    rw [ih, outputIter_calls, List.length_cons]
    omega

theorem outputLoop_withoutLogs (outcome : Nat → WriteResult) (delivered : List String)
    (k : Sink) :
    withoutLogs (outputLoop outcome k delivered).trace =
      withoutLogs k.trace ++ attemptsFor delivered := by
  induction delivered generalizing k with
  | nil => simp [outputLoop, attemptsFor]
  | cons o os ih =>
    show withoutLogs (outputLoop outcome (outputIter outcome k o) os).trace = _
    rw [ih, outputIter_withoutLogs]
    simp [attemptsFor]

theorem writesOf_withoutLogs (t : List Event) : writesOf (withoutLogs t) = writesOf t := by
  induction t with
  | nil => rfl
  | cons e es ih => cases e <;> simp [writesOf, withoutLogs, ih]

theorem echoesOf_withoutLogs (t : List Event) : echoesOf (withoutLogs t) = echoesOf t := by
  induction t with
  | nil => rfl
  | cons e es ih => cases e <;> simp [echoesOf, withoutLogs, ih]

theorem writesOf_attemptsFor (os : List String) :
    writesOf (attemptsFor os) = os.map (fun o => o ++ "\n") := by
  induction os with
  | nil => rfl
  | cons o os ih => simp [attemptsFor, writesOf, ih]

theorem echoesOf_attemptsFor (os : List String) : echoesOf (attemptsFor os) = os := by
  induction os with
  | nil => rfl
  | cons o os ih => simp [attemptsFor, echoesOf, ih]

theorem outputLoop_all_ok (outcome : Nat → WriteResult) (delivered : List String) (k : Sink)
    (hok : ∀ i, i < delivered.length → outcome (k.calls + i) = .ok) :
    (outputLoop outcome k delivered).content = k.content ++ joinLines delivered ∧
    (outputLoop outcome k delivered).trace = k.trace ++ attemptsFor delivered := by
  induction delivered generalizing k with
  | nil => simp [outputLoop, joinLines, attemptsFor]
  | cons o os ih =>
    have h0 : outcome k.calls = .ok := by
      have := hok 0 (by simp)
      simpa using this
    have hstep : outputIter outcome k o =
        { calls := k.calls + 1, content := k.content ++ (o ++ "\n"),
          trace := k.trace ++ [.write (o ++ "\n"), .echo o] } := by
      unfold outputIter
      rw [h0]
    have hrest : ∀ i, i < os.length → outcome ((outputIter outcome k o).calls + i) = .ok := by
      intro i hi
      rw [outputIter_calls]
      have := hok (i + 1) (by simp; omega)
      rw [← this]
      congr 1
      omega
    obtain ⟨hc, ht⟩ := ih (outputIter outcome k o) hrest
    constructor
    · show (outputLoop outcome (outputIter outcome k o) os).content = _
      rw [hc, hstep]
      simp [joinLines, String.append_assoc]
    · show (outputLoop outcome (outputIter outcome k o) os).trace = _
      rw [ht, hstep]
      simp [attemptsFor]

/-- C8: for every sequence of URLs delivered on `output` and every pattern of
write failures, the loop of the output worker makes one `WriteString` call per
URL; apart from the log lines of failed writes, its effects are, URL by URL in
delivery order, the write attempt of the URL followed by one "\n" and then the
echo of the same URL, so a failed write neither stops the loop nor suppresses
later attempts and echoes; and when no write fails the result sink holds exactly
the concatenation of each URL plus "\n" in delivery order. -/
theorem outputLoop_spec (outcome : Nat → WriteResult) (delivered : List String) :
    (outputLoop outcome Sink.empty delivered).calls = delivered.length ∧
    withoutLogs (outputLoop outcome Sink.empty delivered).trace = attemptsFor delivered ∧
    writesOf (outputLoop outcome Sink.empty delivered).trace =
      delivered.map (fun o => o ++ "\n") ∧
    echoesOf (outputLoop outcome Sink.empty delivered).trace = delivered ∧
    ((∀ i, i < delivered.length → outcome i = .ok) →
      (outputLoop outcome Sink.empty delivered).content = joinLines delivered ∧
      (outputLoop outcome Sink.empty delivered).trace = attemptsFor delivered) := by
  have hw := outputLoop_withoutLogs outcome delivered Sink.empty
  have hw' : withoutLogs (outputLoop outcome Sink.empty delivered).trace =
      attemptsFor delivered := by
    rw [hw]
    simp [Sink.empty, withoutLogs]
  refine ⟨?_, hw', ?_, ?_, ?_⟩
  · rw [outputLoop_calls]
    simp [Sink.empty]
  · rw [← writesOf_withoutLogs, hw', writesOf_attemptsFor]
  · rw [← echoesOf_withoutLogs, hw', echoesOf_attemptsFor]
  · intro hok
    have := outputLoop_all_ok outcome delivered Sink.empty (by
      intro i hi
      simpa [Sink.empty] using hok i hi)
    simpa [Sink.empty] using this

/-- C8 on two URLs with a writer that never fails. -/
theorem outputLoop_spec_witness :
    (outputLoop (fun _ => .ok) Sink.empty ["https://a.example", "http://b.example"]).content =
      joinLines ["https://a.example", "http://b.example"] ∧
    (outputLoop (fun _ => .ok) Sink.empty ["https://a.example", "http://b.example"]).trace =
      attemptsFor ["https://a.example", "http://b.example"] :=
  (outputLoop_spec (fun _ => .ok) ["https://a.example", "http://b.example"]).2.2.2.2
    (fun _ _ => rfl)

/-! ## Theorems: the pipeline -/

theorem sum_map_set {α : Type} (f : α → Nat) (l : List α) (i : Nat) (a b : α)
    (h : l[i]? = some a) :
    ((l.set i b).map f).sum + f a = (l.map f).sum + f b := by
  induction l generalizing i with
  | nil => simp at h
  | cons x xs ih =>
    cases i with
    | zero =>
      simp at h
      subst h
      simp
      omega
    | succ i =>
      simp at h
      have := ih i h
      simp only [List.set_cons_succ, List.map_cons, List.sum_cons]
      omega

theorem inv_init (cfg : Cfg) : Inv cfg State.init := by
  constructor <;> simp [State.init, Main.phase, Main.hosts]


theorem le_sum_of_getElem? {α : Type} (f : α → Nat) (l : List α) (i : Nat) (a : α)
    (h : l[i]? = some a) : f a ≤ (l.map f).sum := by
  have := sum_map_set f l i a a h
  induction l generalizing i with
  | nil => simp at h
  | cons x xs ih =>
    cases i with
    | zero =>
      simp at h
      subst h
      simp
    | succ i =>
      simp at h
      have := ih i h (sum_map_set f xs i a a h)
      simp only [List.map_cons, List.sum_cons]
      omega

theorem https_exited_mem_of_sum {l : List HttpsWorker}
    (h : (l.map HttpsWorker.alive).sum = 0) (w : HttpsWorker) (hw : w ∈ l) : w = .exited := by
  obtain ⟨i, hi⟩ := List.mem_iff_getElem?.mp hw
  have := le_sum_of_getElem? HttpsWorker.alive l i w hi
  cases w <;> simp [HttpsWorker.alive] at this ⊢
  all_goals omega

theorem http_exited_mem_of_sum {l : List HttpWorker}
    (h : (l.map HttpWorker.alive).sum = 0) (w : HttpWorker) (hw : w ∈ l) : w = .exited := by
  obtain ⟨i, hi⟩ := List.mem_iff_getElem?.mp hw
  have := le_sum_of_getElem? HttpWorker.alive l i w hi
  cases w <;> simp [HttpWorker.alive] at this ⊢
  all_goals omega

/-- Once `httpURLs` is closed every HTTPS worker has called `Done`. -/
theorem Inv.httpsWG_of_closedHttp {cfg : Cfg} {s : State} (h : Inv cfg s)
    (hc : s.httpURLsClosed = true) : s.httpsWG = 0 :=
  h.waitedHttps (Or.inr (h.closedHttp.mp hc))

/-- Once `output` is closed every worker of both pools has called `Done`. -/
theorem Inv.wg_of_closedOutput {cfg : Cfg} {s : State} (h : Inv cfg s)
    (hc : s.outputClosed = true) : s.httpWG = 0 ∧ s.httpsWG = 0 := by
  have hdone := h.closedOutput.mp hc
  have hwg : s.httpWG = 0 := h.waitedHttp (Or.inr hdone)
  refine ⟨hwg, ?_⟩
  have hphase : 5 ≤ s.main.phase := by
    by_contra hlt
    have := h.spawnedCloseOutput.mpr (by omega)
    rw [this] at hdone
    cases hdone
  have hl1 := h.lenHttps (by omega)
  have hl2 := h.lenHttp (by omega)
  cases hhttp : s.http with
  | nil =>
    have h0 : s.https.length = 0 := by
      rw [hl1, ← hl2, hhttp]
      rfl
    have : s.https = [] := List.length_eq_zero.mp h0
    rw [h.wgHttps, this]
    rfl
  | cons v vs =>
    have hv : v ∈ s.http := by
      rw [hhttp]
      exact List.mem_cons_self _ _
    have hsum := h.wgHttp
    rw [hwg] at hsum
    have := http_exited_mem_of_sum hsum.symm v hv
    subst this
    exact h.httpsWG_of_closedHttp (h.exitedHttp hv)

/-- What replacing worker `i` does to the sums the invariant speaks about. -/
theorem https_set_facts (cfg : Cfg) (l : List HttpsWorker) (i : Nat) (w w' : HttpsWorker)
    (hw : l[i]? = some w) :
    ((l.set i w').map HttpsWorker.alive).sum + w.alive =
      (l.map HttpsWorker.alive).sum + w'.alive ∧
    (∀ x, ((l.set i w').map (HttpsWorker.held x)).sum + w.held x =
      (l.map (HttpsWorker.held x)).sum + w'.held x) ∧
    (∀ x, ((l.set i w').map (HttpsWorker.owed cfg x)).sum + w.owed cfg x =
      (l.map (HttpsWorker.owed cfg x)).sum + w'.owed cfg x) ∧
    (HttpsWorker.exited ∈ l.set i w' → HttpsWorker.exited ∈ l ∨ w' = .exited) :=
  ⟨sum_map_set _ l i w w' hw, fun _ => sum_map_set _ l i w w' hw,
   fun _ => sum_map_set _ l i w w' hw, fun hm =>
    (List.mem_or_eq_of_mem_set hm).imp id Eq.symm⟩

theorem http_set_facts (cfg : Cfg) (l : List HttpWorker) (j : Nat) (v v' : HttpWorker)
    (hv : l[j]? = some v) :
    ((l.set j v').map HttpWorker.alive).sum + v.alive =
      (l.map HttpWorker.alive).sum + v'.alive ∧
    (∀ x, ((l.set j v').map (HttpWorker.owed cfg x)).sum + v.owed cfg x =
      (l.map (HttpWorker.owed cfg x)).sum + v'.owed cfg x) ∧
    (HttpWorker.exited ∈ l.set j v' → HttpWorker.exited ∈ l ∨ v' = .exited) :=
  ⟨sum_map_set _ l j v v' hv, fun _ => sum_map_set _ l j v v' hv, fun hm =>
    (List.mem_or_eq_of_mem_set hm).imp id Eq.symm⟩

/-- Line 90-93: one more HTTPS worker is started. -/
theorem inv_spawnHttps {cfg : Cfg} {s : State} {i : Int}
    (h : Inv cfg s) (hm : s.main = .spawnHttps i) (hlt : i < cfg.concurrency.tdiv 2) :
    Inv cfg { s with main := .spawnHttps (i + 1)
                     httpsWG := s.httpsWG + 1
                     https := s.https ++ [.recv] } := by
  obtain ⟨h1, h2, h3, h4, h5, h6, h7, h8, h9, h10, h11, h12,
    h13, h14, h15, h16, h17, h18, h19, h20, h21, h22, h23⟩ := h
  simp only [hm, Main.phase, Main.hosts] at h5 h6 h7 h8 h9 h10 h11 h12 h20 h21 h22 h23
  constructor <;> dsimp only [Main.phase, Main.hosts]
  case wgHttps =>
    simp_all [HttpsWorker.alive, HttpWorker.alive, HttpsWorker.held, HttpsWorker.owed,
        HttpWorker.owed, owedBy]
  case loopHttps =>
    simp_all
    omega
  case loopHttp => simp
  case lenHttps => omega
  case waitedHttps => simp_all
  case exitedHttps => simp_all
  case waitedOutput => simp
  case hostsBalance =>
    simp_all [HttpsWorker.alive, HttpWorker.alive, HttpsWorker.held, HttpsWorker.owed,
        HttpWorker.owed, owedBy]
  case outputBalance =>
    simp_all [HttpsWorker.alive, HttpWorker.alive, HttpsWorker.held, HttpsWorker.owed,
        HttpWorker.owed, owedBy]
  all_goals assumption

/-- Line 90: the first start-up loop ends. -/
theorem inv_spawnHttps_exit {cfg : Cfg} {s : State} {i : Int}
    (h : Inv cfg s) (hm : s.main = .spawnHttps i) (hlt : ¬ i < cfg.concurrency.tdiv 2) :
    Inv cfg { s with main := .spawnHttp 0 } := by
  obtain ⟨h1, h2, h3, h4, h5, h6, h7, h8, h9, h10, h11, h12,
    h13, h14, h15, h16, h17, h18, h19, h20, h21, h22, h23⟩ := h
  simp only [hm, Main.phase, Main.hosts] at h5 h6 h7 h8 h9 h10 h11 h12 h20 h21 h22 h23
  constructor <;> dsimp only [Main.phase, Main.hosts]
  case loopHttps => simp
  case loopHttp => simp_all
  case lenHttps =>
    intro _
    have := h5 i rfl
    unfold poolSize
    omega
  case lenHttp => omega
  case spawnedCloseHttp => simp_all
  case spawnedOutput => simp_all
  case spawnedCloseOutput => simp_all
  case closedHttps => simp_all
  case waitedOutput => simp
  all_goals assumption

/-- Line 107-110: one more HTTP worker is started. -/
theorem inv_spawnHttp {cfg : Cfg} {s : State} {i : Int}
    (h : Inv cfg s) (hm : s.main = .spawnHttp i) (hlt : i < cfg.concurrency.tdiv 2) :
    Inv cfg { s with main := .spawnHttp (i + 1)
                     httpWG := s.httpWG + 1
                     http := s.http ++ [.recv] } := by
  obtain ⟨h1, h2, h3, h4, h5, h6, h7, h8, h9, h10, h11, h12,
    h13, h14, h15, h16, h17, h18, h19, h20, h21, h22, h23⟩ := h
  simp only [hm, Main.phase, Main.hosts] at h5 h6 h7 h8 h9 h10 h11 h12 h20 h21 h22 h23
  constructor <;> dsimp only [Main.phase, Main.hosts]
  case wgHttp =>
    simp_all [HttpsWorker.alive, HttpWorker.alive, HttpsWorker.held, HttpsWorker.owed,
        HttpWorker.owed, owedBy]
  case loopHttps => simp
  case loopHttp =>
    simp_all
    omega
  case lenHttp => omega
  case waitedHttp => simp_all
  case exitedHttp => simp_all
  case waitedOutput => simp
  case outputBalance =>
    simp_all [HttpsWorker.alive, HttpWorker.alive, HttpsWorker.held, HttpsWorker.owed,
        HttpWorker.owed, owedBy]
  all_goals assumption

/-- Line 107: the second start-up loop ends. -/
theorem inv_spawnHttp_exit {cfg : Cfg} {s : State} {i : Int}
    (h : Inv cfg s) (hm : s.main = .spawnHttp i) (hlt : ¬ i < cfg.concurrency.tdiv 2) :
    Inv cfg { s with main := .spawnCloseHttp } := by
  obtain ⟨h1, h2, h3, h4, h5, h6, h7, h8, h9, h10, h11, h12,
    h13, h14, h15, h16, h17, h18, h19, h20, h21, h22, h23⟩ := h
  simp only [hm, Main.phase, Main.hosts] at h5 h6 h7 h8 h9 h10 h11 h12 h20 h21 h22 h23
  constructor <;> dsimp only [Main.phase, Main.hosts]
  case loopHttps => simp
  case loopHttp => simp
  case lenHttps => omega
  case lenHttp =>
    intro _
    have := h6 i rfl
    unfold poolSize
    omega
  case spawnedCloseHttp => simp_all
  case spawnedOutput => simp_all
  case spawnedCloseOutput => simp_all
  case closedHttps => simp_all
  case waitedOutput => simp
  all_goals assumption

/-- Line 123: the closer of `httpURLs` is started. -/
theorem inv_spawnCloseHttp {cfg : Cfg} {s : State}
    (h : Inv cfg s) (hm : s.main = .spawnCloseHttp) :
    Inv cfg { s with main := .spawnOutput, closeHttp := .waiting } := by
  obtain ⟨h1, h2, h3, h4, h5, h6, h7, h8, h9, h10, h11, h12,
    h13, h14, h15, h16, h17, h18, h19, h20, h21, h22, h23⟩ := h
  simp only [hm, Main.phase, Main.hosts] at h5 h6 h7 h8 h9 h10 h11 h12 h20 h21 h22 h23
  constructor <;> dsimp only [Main.phase, Main.hosts]
  case loopHttps => simp
  case loopHttp => simp
  case lenHttps => omega
  case lenHttp => omega
  case spawnedCloseHttp => simp
  case spawnedOutput => simp_all
  case spawnedCloseOutput => simp_all
  case closedHttps => simp_all
  case closedHttp => simp_all
  case waitedHttps => simp
  case waitedOutput => simp
  all_goals assumption

/-- Lines 130-131: the output worker is started. -/
theorem inv_spawnOutput {cfg : Cfg} {s : State}
    (h : Inv cfg s) (hm : s.main = .spawnOutput) :
    Inv cfg { s with main := .spawnCloseOutput
                     outputWG := s.outputWG + 1
                     outputWorker := .recv } := by
  obtain ⟨h1, h2, h3, h4, h5, h6, h7, h8, h9, h10, h11, h12,
    h13, h14, h15, h16, h17, h18, h19, h20, h21, h22, h23⟩ := h
  simp only [hm, Main.phase, Main.hosts] at h5 h6 h7 h8 h9 h10 h11 h12 h20 h21 h22 h23
  constructor <;> dsimp only [Main.phase, Main.hosts]
  case wgOut => simp_all
  case loopHttps => simp
  case loopHttp => simp
  case lenHttps => omega
  case lenHttp => omega
  case spawnedCloseHttp => simp_all
  case spawnedOutput => simp
  case spawnedCloseOutput => simp_all
  case closedHttps => simp_all
  case exitedOutput => simp
  case waitedOutput => simp
  all_goals assumption

/-- Line 143: the closer of `output` is started; the input is opened. -/
theorem inv_spawnCloseOutput {cfg : Cfg} {s : State}
    (h : Inv cfg s) (hm : s.main = .spawnCloseOutput) :
    Inv cfg { s with main := .scan cfg.lines, closeOutput := .waiting } := by
  obtain ⟨h1, h2, h3, h4, h5, h6, h7, h8, h9, h10, h11, h12,
    h13, h14, h15, h16, h17, h18, h19, h20, h21, h22, h23⟩ := h
  simp only [hm, Main.phase, Main.hosts] at h5 h6 h7 h8 h9 h10 h11 h12 h20 h21 h22 h23
  constructor <;> dsimp only [Main.phase, Main.hosts]
  case loopHttps => simp
  case loopHttp => simp
  case lenHttps => omega
  case lenHttp => omega
  case spawnedCloseHttp => simp_all
  case spawnedOutput => simp_all
  case spawnedCloseOutput => simp
  case closedHttps => simp_all
  case closedOutput => simp_all
  case waitedHttp => simp
  case waitedOutput => simp
  all_goals assumption

/-- Line 156: `sc.Scan()` reports the end of the input. -/
theorem inv_scan_nil {cfg : Cfg} {s : State}
    (h : Inv cfg s) (hm : s.main = .scan []) :
    Inv cfg { s with main := .closeHttps } := by
  obtain ⟨h1, h2, h3, h4, h5, h6, h7, h8, h9, h10, h11, h12,
    h13, h14, h15, h16, h17, h18, h19, h20, h21, h22, h23⟩ := h
  simp only [hm, Main.phase, Main.hosts] at h5 h6 h7 h8 h9 h10 h11 h12 h20 h21 h22 h23
  constructor <;> dsimp only [Main.phase, Main.hosts]
  case loopHttps => simp
  case loopHttp => simp
  case lenHttps => omega
  case lenHttp => omega
  case spawnedCloseHttp => simp_all
  case spawnedOutput => simp_all
  case spawnedCloseOutput => simp_all
  case closedHttps => simp_all
  case waitedOutput => simp
  all_goals assumption

/-- Lines 156-157: the next line is read and lower-cased. -/
theorem inv_scan_cons {cfg : Cfg} {s : State} {l : String} {rest : List String}
    (h : Inv cfg s) (hm : s.main = .scan (l :: rest)) :
    Inv cfg { s with main := .send (cfg.lower l) rest } := by
  obtain ⟨h1, h2, h3, h4, h5, h6, h7, h8, h9, h10, h11, h12,
    h13, h14, h15, h16, h17, h18, h19, h20, h21, h22, h23⟩ := h
  simp only [hm, Main.phase, Main.hosts] at h5 h6 h7 h8 h9 h10 h11 h12 h20 h21 h22 h23
  constructor <;> dsimp only [Main.phase, Main.hosts]
  case loopHttps => simp
  case loopHttp => simp
  case waitedOutput => simp
  all_goals assumption

/-- Line 163: `close(httpsURLs)`. -/
theorem inv_closeHttps {cfg : Cfg} {s : State}
    (h : Inv cfg s) (hm : s.main = .closeHttps) :
    Inv cfg { s with main := .wait, httpsURLsClosed := true } := by
  obtain ⟨h1, h2, h3, h4, h5, h6, h7, h8, h9, h10, h11, h12,
    h13, h14, h15, h16, h17, h18, h19, h20, h21, h22, h23⟩ := h
  simp only [hm, Main.phase, Main.hosts] at h5 h6 h7 h8 h9 h10 h11 h12 h20 h21 h22 h23
  constructor <;> dsimp only [Main.phase, Main.hosts]
  case loopHttps => simp
  case loopHttp => simp
  case lenHttps => omega
  case lenHttp => omega
  case spawnedCloseHttp => simp_all
  case spawnedOutput => simp_all
  case spawnedCloseOutput => simp_all
  case closedHttps => simp
  case exitedHttps => simp
  case waitedOutput => simp
  all_goals assumption

/-- Line 166: `outputWG.Wait()` returns. -/
theorem inv_wait {cfg : Cfg} {s : State}
    (h : Inv cfg s) (hm : s.main = .wait) (hwg : s.outputWG = 0) :
    Inv cfg { s with main := .done } := by
  obtain ⟨h1, h2, h3, h4, h5, h6, h7, h8, h9, h10, h11, h12,
    h13, h14, h15, h16, h17, h18, h19, h20, h21, h22, h23⟩ := h
  simp only [hm, Main.phase, Main.hosts] at h5 h6 h7 h8 h9 h10 h11 h12 h20 h21 h22 h23
  constructor <;> dsimp only [Main.phase, Main.hosts]
  case loopHttps => simp
  case loopHttp => simp
  case lenHttps => omega
  case lenHttp => omega
  case spawnedCloseHttp => simp_all
  case spawnedOutput => simp_all
  case spawnedCloseOutput => simp_all
  case closedHttps => simp_all
  case waitedOutput => omega
  all_goals assumption

/-- Lines 94-95: an HTTPS worker leaves its loop and calls `Done`. -/
theorem inv_httpsExit {cfg : Cfg} {s : State} {i : Nat}
    (h : Inv cfg s) (hw : s.https[i]? = some .recv) (hc : s.httpsURLsClosed = true) :
    Inv cfg { s with https := s.https.set i .exited, httpsWG := s.httpsWG - 1 } := by
  obtain ⟨f1, f2, f3, f4⟩ :=
    https_set_facts cfg s.https i .recv .exited hw
  simp only [HttpsWorker.alive, HttpsWorker.held, HttpsWorker.owed] at f1 f2 f3
  obtain ⟨h1, h2, h3, h4, h5, h6, h7, h8, h9, h10, h11, h12,
    h13, h14, h15, h16, h17, h18, h19, h20, h21, h22, h23⟩ := h
  constructor <;> dsimp only
  case wgHttps => omega
  case loopHttps => simpa using h5
  case lenHttps => simpa using h7
  case waitedHttps =>
    intro hx
    have := h15 hx
    omega
  case exitedHttps =>
    intro hx
    rcases f4 hx with hx | hx
    · exact h17 hx
    · exact hc
  case hostsBalance =>
    intro x
    have e1 := h22 x
    have e2 := f2 x
    omega
  case outputBalance =>
    intro x
    have e1 := h23 x
    have e2 := f3 x
    omega
  all_goals assumption

/-- Lines 95 and 159: a hostname passes from the main goroutine to an HTTPS worker. -/
theorem inv_submit {cfg : Cfg} {s : State} {i : Nat} {domain : String} {rest : List String}
    (h : Inv cfg s) (hw : s.https[i]? = some .recv) (hm : s.main = .send domain rest) :
    Inv cfg { s with main := .scan rest
                     https := s.https.set i (.probe domain)
                     submitted := s.submitted ++ [domain] } := by
  obtain ⟨f1, f2, f3, f4⟩ :=
    https_set_facts cfg s.https i .recv (.probe domain) hw
  simp only [HttpsWorker.alive, HttpsWorker.held, HttpsWorker.owed] at f1 f2 f3
  obtain ⟨h1, h2, h3, h4, h5, h6, h7, h8, h9, h10, h11, h12,
    h13, h14, h15, h16, h17, h18, h19, h20, h21, h22, h23⟩ := h
  simp only [hm, Main.phase, Main.hosts] at h5 h6 h7 h8 h9 h10 h11 h12 h20 h21 h22 h23
  constructor <;> dsimp only [Main.phase, Main.hosts]
  case wgHttps => omega
  case loopHttps => simp
  case loopHttp => simp
  case lenHttps => simpa using h7
  case exitedHttps =>
    intro hx
    rcases f4 hx with hx | hx
    · exact h17 hx
    · cases hx
  case waitedOutput => simp
  case submittedLog => simpa using h21
  case hostsBalance =>
    intro x
    have e1 := h22 x
    have e2 := f2 x
    simp only [List.count_append, List.count_cons, List.count_nil, owedBy, List.map_cons,
        List.sum_cons, httpsOut, httpOut, Bool.false_eq_true, if_true, if_false] at e1 e2 ⊢
    omega
  case outputBalance =>
    intro x
    have e1 := h23 x
    have e2 := f3 x
    simp only [List.count_append, List.count_cons, List.count_nil, owedBy, List.map_cons,
        List.sum_cons, httpsOut, httpOut, Bool.false_eq_true, if_true, if_false] at e1 e2 ⊢
    omega
  all_goals assumption

/-- Lines 96-97: the HTTPS probe is live. -/
theorem inv_httpsProbe_live {cfg : Cfg} {s : State} {i : Nat} {url : String}
    (h : Inv cfg s) (hw : s.https[i]? = some (.probe url))
    (hv : isValidResponse cfg.client ("https://" ++ url) = true) :
    Inv cfg { s with https := s.https.set i (.sendOut ("https://" ++ url) url) } := by
  obtain ⟨f1, f2, f3, f4⟩ :=
    https_set_facts cfg s.https i (.probe url) (.sendOut ("https://" ++ url) url) hw
  simp only [HttpsWorker.alive, HttpsWorker.held, HttpsWorker.owed] at f1 f2 f3
  obtain ⟨h1, h2, h3, h4, h5, h6, h7, h8, h9, h10, h11, h12,
    h13, h14, h15, h16, h17, h18, h19, h20, h21, h22, h23⟩ := h
  constructor <;> dsimp only
  case wgHttps => omega
  case loopHttps => simpa using h5
  case lenHttps => simpa using h7
  case exitedHttps =>
    intro hx
    rcases f4 hx with hx | hx
    · exact h17 hx
    · cases hx
  case hostsBalance =>
    intro x
    have e1 := h22 x
    have e2 := f2 x
    omega
  case outputBalance =>
    intro x
    have e1 := h23 x
    have e2 := f3 x
    simp only [List.count_append, List.count_cons, List.count_nil, owedBy, List.map_cons,
        List.sum_cons, httpsOut, httpOut, Bool.false_eq_true, if_true, if_false, hv] at e1 e2 ⊢
    omega
  all_goals assumption

/-- Lines 96-97: the HTTPS probe is not live. -/
theorem inv_httpsProbe_dead {cfg : Cfg} {s : State} {i : Nat} {url : String}
    (h : Inv cfg s) (hw : s.https[i]? = some (.probe url))
    (hv : ¬ isValidResponse cfg.client ("https://" ++ url) = true) :
    Inv cfg { s with https := s.https.set i (.forward url) } := by
  obtain ⟨f1, f2, f3, f4⟩ :=
    https_set_facts cfg s.https i (.probe url) (.forward url) hw
  simp only [HttpsWorker.alive, HttpsWorker.held, HttpsWorker.owed] at f1 f2 f3
  obtain ⟨h1, h2, h3, h4, h5, h6, h7, h8, h9, h10, h11, h12,
    h13, h14, h15, h16, h17, h18, h19, h20, h21, h22, h23⟩ := h
  constructor <;> dsimp only
  case wgHttps => omega
  case loopHttps => simpa using h5
  case lenHttps => simpa using h7
  case exitedHttps =>
    intro hx
    rcases f4 hx with hx | hx
    · exact h17 hx
    · cases hx
  case hostsBalance =>
    intro x
    have e1 := h22 x
    have e2 := f2 x
    omega
  case outputBalance =>
    intro x
    have e1 := h23 x
    have e2 := f3 x
    simp only [List.count_append, List.count_cons, List.count_nil, owedBy, List.map_cons,
        List.sum_cons, httpsOut, httpOut, Bool.false_eq_true, if_true, if_false, hv] at e1 e2 ⊢
    omega
  all_goals assumption

/-- Lines 98 and 132: a validated URL passes from an HTTPS worker to the output worker. -/
theorem inv_httpsOutput {cfg : Cfg} {s : State} {i : Nat} {target url : String}
    (h : Inv cfg s) (hw : s.https[i]? = some (.sendOut target url)) :
    Inv cfg { s with https := s.https.set i (.forward url)
                     received := s.received ++ [target] } := by
  obtain ⟨f1, f2, f3, f4⟩ :=
    https_set_facts cfg s.https i (.sendOut target url) (.forward url) hw
  simp only [HttpsWorker.alive, HttpsWorker.held, HttpsWorker.owed] at f1 f2 f3
  obtain ⟨h1, h2, h3, h4, h5, h6, h7, h8, h9, h10, h11, h12,
    h13, h14, h15, h16, h17, h18, h19, h20, h21, h22, h23⟩ := h
  constructor <;> dsimp only
  case wgHttps => omega
  case loopHttps => simpa using h5
  case lenHttps => simpa using h7
  case exitedHttps =>
    intro hx
    rcases f4 hx with hx | hx
    · exact h17 hx
    · cases hx
  case hostsBalance =>
    intro x
    have e1 := h22 x
    have e2 := f2 x
    omega
  case outputBalance =>
    intro x
    have e1 := h23 x
    have e2 := f3 x
    simp only [List.count_append, List.count_cons, List.count_nil, owedBy, List.map_cons,
        List.sum_cons, httpsOut, httpOut, Bool.false_eq_true, if_true, if_false] at e1 e2 ⊢
    omega
  all_goals assumption

/-- Lines 100 and 112: a hostname passes from an HTTPS worker to an HTTP worker. -/
theorem inv_forward {cfg : Cfg} {s : State} {i j : Nat} {url : String}
    (h : Inv cfg s) (hw : s.https[i]? = some (.forward url)) (hv : s.http[j]? = some .recv) :
    Inv cfg { s with https := s.https.set i .recv
                     http := s.http.set j (.probe url)
                     forwarded := s.forwarded ++ [url] } := by
  obtain ⟨f1, f2, f3, f4⟩ :=
    https_set_facts cfg s.https i (.forward url) .recv hw
  simp only [HttpsWorker.alive, HttpsWorker.held, HttpsWorker.owed] at f1 f2 f3
  obtain ⟨g1, g2, g3⟩ :=
    http_set_facts cfg s.http j .recv (.probe url) hv
  simp only [HttpWorker.alive, HttpWorker.owed] at g1 g2
  obtain ⟨h1, h2, h3, h4, h5, h6, h7, h8, h9, h10, h11, h12,
    h13, h14, h15, h16, h17, h18, h19, h20, h21, h22, h23⟩ := h
  constructor <;> dsimp only
  case wgHttps => omega
  case wgHttp => omega
  case loopHttps => simpa using h5
  case loopHttp => simpa using h6
  case lenHttps => simpa using h7
  case lenHttp => simpa using h8
  case exitedHttps =>
    intro hx
    rcases f4 hx with hx | hx
    · exact h17 hx
    · cases hx
  case exitedHttp =>
    intro hx
    rcases g3 hx with hx | hx
    · exact h18 hx
    · cases hx
  case hostsBalance =>
    intro x
    have e1 := h22 x
    have e2 := f2 x
    simp only [List.count_append, List.count_cons, List.count_nil, owedBy, List.map_cons,
        List.sum_cons, httpsOut, httpOut, Bool.false_eq_true, if_true, if_false] at e1 e2 ⊢
    omega
  case outputBalance =>
    intro x
    have e1 := h23 x
    have e2 := f3 x
    have e3 := g2 x
    omega
  all_goals assumption

/-- Lines 111-112: an HTTP worker leaves its loop and calls `Done`. -/
theorem inv_httpExit {cfg : Cfg} {s : State} {j : Nat}
    (h : Inv cfg s) (hv : s.http[j]? = some .recv) (hc : s.httpURLsClosed = true) :
    Inv cfg { s with http := s.http.set j .exited, httpWG := s.httpWG - 1 } := by
  obtain ⟨g1, g2, g3⟩ :=
    http_set_facts cfg s.http j .recv .exited hv
  simp only [HttpWorker.alive, HttpWorker.owed] at g1 g2
  obtain ⟨h1, h2, h3, h4, h5, h6, h7, h8, h9, h10, h11, h12,
    h13, h14, h15, h16, h17, h18, h19, h20, h21, h22, h23⟩ := h
  constructor <;> dsimp only
  case wgHttp => omega
  case loopHttps => simpa using h5
  case loopHttp => simpa using h6
  case lenHttp => simpa using h8
  case waitedHttp =>
    intro hx
    have := h16 hx
    omega
  case exitedHttp =>
    intro hx
    rcases g3 hx with hx | hx
    · exact h18 hx
    · exact hc
  case outputBalance =>
    intro x
    have e1 := h23 x
    have e3 := g2 x
    omega
  all_goals assumption

/-- Lines 113-114: the HTTP probe is live. -/
theorem inv_httpProbe_live {cfg : Cfg} {s : State} {j : Nat} {url : String}
    (h : Inv cfg s) (hv : s.http[j]? = some (.probe url))
    (hl : isValidResponse cfg.client ("http://" ++ url) = true) :
    Inv cfg { s with http := s.http.set j (.sendOut ("http://" ++ url)) } := by
  obtain ⟨g1, g2, g3⟩ :=
    http_set_facts cfg s.http j (.probe url) (.sendOut ("http://" ++ url)) hv
  simp only [HttpWorker.alive, HttpWorker.owed] at g1 g2
  obtain ⟨h1, h2, h3, h4, h5, h6, h7, h8, h9, h10, h11, h12,
    h13, h14, h15, h16, h17, h18, h19, h20, h21, h22, h23⟩ := h
  constructor <;> dsimp only
  case wgHttp => omega
  case loopHttps => simpa using h5
  case loopHttp => simpa using h6
  case lenHttp => simpa using h8
  case exitedHttp =>
    intro hx
    rcases g3 hx with hx | hx
    · exact h18 hx
    · cases hx
  case outputBalance =>
    intro x
    have e1 := h23 x
    have e3 := g2 x
    simp only [List.count_append, List.count_cons, List.count_nil, owedBy, List.map_cons,
        List.sum_cons, httpsOut, httpOut, Bool.false_eq_true, if_true, if_false, hl] at e1 e3 ⊢
    omega
  all_goals assumption

/-- Lines 113-114: the HTTP probe is not live. -/
theorem inv_httpProbe_dead {cfg : Cfg} {s : State} {j : Nat} {url : String}
    (h : Inv cfg s) (hv : s.http[j]? = some (.probe url))
    (hl : ¬ isValidResponse cfg.client ("http://" ++ url) = true) :
    Inv cfg { s with http := s.http.set j .recv } := by
  obtain ⟨g1, g2, g3⟩ :=
    http_set_facts cfg s.http j (.probe url) .recv hv
  simp only [HttpWorker.alive, HttpWorker.owed] at g1 g2
  obtain ⟨h1, h2, h3, h4, h5, h6, h7, h8, h9, h10, h11, h12,
    h13, h14, h15, h16, h17, h18, h19, h20, h21, h22, h23⟩ := h
  constructor <;> dsimp only
  case wgHttp => omega
  case loopHttps => simpa using h5
  case loopHttp => simpa using h6
  case lenHttp => simpa using h8
  case exitedHttp =>
    intro hx
    rcases g3 hx with hx | hx
    · exact h18 hx
    · cases hx
  case outputBalance =>
    intro x
    have e1 := h23 x
    have e3 := g2 x
    simp only [List.count_append, List.count_cons, List.count_nil, owedBy, List.map_cons,
        List.sum_cons, httpsOut, httpOut, Bool.false_eq_true, if_true, if_false, hl] at e1 e3 ⊢
    omega
  all_goals assumption

/-- Lines 115 and 132: a validated URL passes from an HTTP worker to the output worker. -/
theorem inv_httpOutput {cfg : Cfg} {s : State} {j : Nat} {target : String}
    (h : Inv cfg s) (hv : s.http[j]? = some (.sendOut target)) :
    Inv cfg { s with http := s.http.set j .recv
                     received := s.received ++ [target] } := by
  obtain ⟨g1, g2, g3⟩ :=
    http_set_facts cfg s.http j (.sendOut target) .recv hv
  simp only [HttpWorker.alive, HttpWorker.owed] at g1 g2
  obtain ⟨h1, h2, h3, h4, h5, h6, h7, h8, h9, h10, h11, h12,
    h13, h14, h15, h16, h17, h18, h19, h20, h21, h22, h23⟩ := h
  constructor <;> dsimp only
  case wgHttp => omega
  case loopHttps => simpa using h5
  case loopHttp => simpa using h6
  case lenHttp => simpa using h8
  case exitedHttp =>
    intro hx
    rcases g3 hx with hx | hx
    · exact h18 hx
    · cases hx
  case outputBalance =>
    intro x
    have e1 := h23 x
    have e3 := g2 x
    simp only [List.count_append, List.count_cons, List.count_nil, owedBy, List.map_cons,
        List.sum_cons, httpsOut, httpOut, Bool.false_eq_true, if_true, if_false] at e1 e3 ⊢
    omega
  all_goals assumption

/-- Line 124: `httpsWG.Wait()` returns. -/
theorem inv_closeHttp_wait {cfg : Cfg} {s : State}
    (h : Inv cfg s) (hm : s.closeHttp = .waiting) (hwg : s.httpsWG = 0) :
    Inv cfg { s with closeHttp := .closing } := by
  obtain ⟨h1, h2, h3, h4, h5, h6, h7, h8, h9, h10, h11, h12,
    h13, h14, h15, h16, h17, h18, h19, h20, h21, h22, h23⟩ := h
  constructor <;> dsimp only
  case spawnedCloseHttp => simp_all
  case closedHttp => simp_all
  case waitedHttps => omega
  all_goals assumption

/-- Line 125: `close(httpURLs)`. -/
theorem inv_closeHttp_close {cfg : Cfg} {s : State}
    (h : Inv cfg s) (hm : s.closeHttp = .closing) :
    Inv cfg { s with closeHttp := .done, httpURLsClosed := true } := by
  obtain ⟨h1, h2, h3, h4, h5, h6, h7, h8, h9, h10, h11, h12,
    h13, h14, h15, h16, h17, h18, h19, h20, h21, h22, h23⟩ := h
  constructor <;> dsimp only
  case spawnedCloseHttp => simp_all
  case closedHttp => simp
  case waitedHttps => simp_all
  case exitedHttp => simp
  all_goals assumption

/-- Line 144: `httpWG.Wait()` returns. -/
theorem inv_closeOutput_wait {cfg : Cfg} {s : State}
    (h : Inv cfg s) (hm : s.closeOutput = .waiting) (hwg : s.httpWG = 0) :
    Inv cfg { s with closeOutput := .closing } := by
  obtain ⟨h1, h2, h3, h4, h5, h6, h7, h8, h9, h10, h11, h12,
    h13, h14, h15, h16, h17, h18, h19, h20, h21, h22, h23⟩ := h
  constructor <;> dsimp only
  case spawnedCloseOutput => simp_all
  case closedOutput => simp_all
  case waitedHttp => omega
  all_goals assumption

/-- Line 145: `close(output)`. -/
theorem inv_closeOutput_close {cfg : Cfg} {s : State}
    (h : Inv cfg s) (hm : s.closeOutput = .closing) :
    Inv cfg { s with closeOutput := .done, outputClosed := true } := by
  obtain ⟨h1, h2, h3, h4, h5, h6, h7, h8, h9, h10, h11, h12,
    h13, h14, h15, h16, h17, h18, h19, h20, h21, h22, h23⟩ := h
  constructor <;> dsimp only
  case spawnedCloseOutput => simp_all
  case closedOutput => simp
  case waitedHttp => simp_all
  case exitedOutput => simp
  all_goals assumption

/-- Lines 132 and 139: the output worker leaves its loop and calls `Done`. -/
theorem inv_outputExit {cfg : Cfg} {s : State}
    (h : Inv cfg s) (hm : s.outputWorker = .recv) (hc : s.outputClosed = true) :
    Inv cfg { s with outputWorker := .exited, outputWG := s.outputWG - 1 } := by
  obtain ⟨h1, h2, h3, h4, h5, h6, h7, h8, h9, h10, h11, h12,
    h13, h14, h15, h16, h17, h18, h19, h20, h21, h22, h23⟩ := h
  constructor <;> dsimp only
  case wgOut => simp_all
  case spawnedOutput => simp_all
  case exitedOutput => simp_all
  case waitedOutput => simp_all
  all_goals assumption

theorem mainStep_inv {cfg : Cfg} {s s' : State} (h : Inv cfg s)
    (hs : mainStep cfg s = some s') : Inv cfg s' := by
  unfold mainStep at hs
  split at hs <;> rename_i hm
  · split at hs <;> rename_i hlt <;> simp only [Option.some.injEq] at hs <;> subst hs
    · exact inv_spawnHttps h hm hlt
    · exact inv_spawnHttps_exit h hm hlt
  · split at hs <;> rename_i hlt <;> simp only [Option.some.injEq] at hs <;> subst hs
    · exact inv_spawnHttp h hm hlt
    · exact inv_spawnHttp_exit h hm hlt
  · simp only [Option.some.injEq] at hs
    subst hs
    exact inv_spawnCloseHttp h hm
  · simp only [Option.some.injEq] at hs
    subst hs
    exact inv_spawnOutput h hm
  · simp only [Option.some.injEq] at hs
    subst hs
    exact inv_spawnCloseOutput h hm
  · simp only [Option.some.injEq] at hs
    subst hs
    exact inv_scan_nil h hm
  · simp only [Option.some.injEq] at hs
    subst hs
    exact inv_scan_cons h hm
  · split at hs <;> rename_i hc
    · have := h.closedHttps.mp hc
      rw [hm] at this
      simp [Main.phase] at this
    · cases hs
  · split at hs <;> rename_i hc
    · have := h.closedHttps.mp hc
      rw [hm] at this
      simp [Main.phase] at this
    · simp only [Option.some.injEq] at hs
      subst hs
      exact inv_closeHttps h hm
  · split at hs <;> rename_i hwg
    · simp only [Option.some.injEq] at hs
      subst hs
      exact inv_wait h hm hwg
    · cases hs
  · cases hs

theorem httpsStep_inv {cfg : Cfg} {s s' : State} {i : Nat} (h : Inv cfg s)
    (hs : httpsStep cfg s i = some s') : Inv cfg s' := by
  unfold httpsStep at hs
  split at hs <;> rename_i hw
  · split at hs <;> rename_i hc
    · split at hs <;> rename_i hwg
      · have h1 := le_sum_of_getElem? HttpsWorker.alive s.https i _ hw
        have h2 := h.wgHttps
        simp only [HttpsWorker.alive] at h1
        omega
      · simp only [Option.some.injEq] at hs
        subst hs
        exact inv_httpsExit h hw (by simpa using hc)
    · split at hs <;> rename_i hm
      · simp only [Option.some.injEq] at hs
        subst hs
        exact inv_submit h hw hm
      · cases hs
  · split at hs <;> rename_i hv <;> simp only [Option.some.injEq] at hs <;> subst hs
    · exact inv_httpsProbe_live h hw hv
    · exact inv_httpsProbe_dead h hw hv
  · split at hs <;> rename_i hc
    · have h1 := le_sum_of_getElem? HttpsWorker.alive s.https i _ hw
      have h2 := h.wgHttps
      have h3 := (h.wg_of_closedOutput hc).2
      simp only [HttpsWorker.alive] at h1
      omega
    · split at hs
      · simp only [Option.some.injEq] at hs
        subst hs
        exact inv_httpsOutput h hw
      · cases hs
  · split at hs <;> rename_i hc
    · have h1 := le_sum_of_getElem? HttpsWorker.alive s.https i _ hw
      have h2 := h.wgHttps
      have h3 := h.httpsWG_of_closedHttp hc
      simp only [HttpsWorker.alive] at h1
      omega
    · cases hs
  · cases hs
  · cases hs

theorem forwardStep_inv {cfg : Cfg} {s s' : State} {i j : Nat} (h : Inv cfg s)
    (hs : forwardStep s i j = some s') : Inv cfg s' := by
  unfold forwardStep at hs
  split at hs
  · rename_i hw hv
    split at hs
    · cases hs
    · simp only [Option.some.injEq] at hs
      subst hs
      exact inv_forward h hw hv
  · cases hs

theorem httpStep_inv {cfg : Cfg} {s s' : State} {j : Nat} (h : Inv cfg s)
    (hs : httpStep cfg s j = some s') : Inv cfg s' := by
  unfold httpStep at hs
  split at hs <;> rename_i hv
  · split at hs <;> rename_i hc
    · split at hs <;> rename_i hwg
      · have h1 := le_sum_of_getElem? HttpWorker.alive s.http j _ hv
        have h2 := h.wgHttp
        simp only [HttpWorker.alive] at h1
        omega
      · simp only [Option.some.injEq] at hs
        subst hs
        exact inv_httpExit h hv (by simpa using hc)
    · cases hs
  · split at hs <;> rename_i hl <;> simp only [Option.some.injEq] at hs <;> subst hs
    · exact inv_httpProbe_live h hv hl
    · exact inv_httpProbe_dead h hv hl
  · split at hs <;> rename_i hc
    · have h1 := le_sum_of_getElem? HttpWorker.alive s.http j _ hv
      have h2 := h.wgHttp
      have h3 := (h.wg_of_closedOutput hc).1
      simp only [HttpWorker.alive] at h1
      omega
    · split at hs
      · simp only [Option.some.injEq] at hs
        subst hs
        exact inv_httpOutput h hv
      · cases hs
  · cases hs
  · cases hs

theorem closeHttpStep_inv {cfg : Cfg} {s s' : State} (h : Inv cfg s)
    (hs : closeHttpStep s = some s') : Inv cfg s' := by
  unfold closeHttpStep at hs
  split at hs <;> rename_i hm
  · split at hs <;> rename_i hwg
    · simp only [Option.some.injEq] at hs
      subst hs
      exact inv_closeHttp_wait h hm hwg
    · cases hs
  · split at hs <;> rename_i hc
    · have := h.closedHttp.mp hc
      rw [hm] at this
      cases this
    · simp only [Option.some.injEq] at hs
      subst hs
      exact inv_closeHttp_close h hm
  · cases hs

theorem closeOutputStep_inv {cfg : Cfg} {s s' : State} (h : Inv cfg s)
    (hs : closeOutputStep s = some s') : Inv cfg s' := by
  unfold closeOutputStep at hs
  split at hs <;> rename_i hm
  · split at hs <;> rename_i hwg
    · simp only [Option.some.injEq] at hs
      subst hs
      exact inv_closeOutput_wait h hm hwg
    · cases hs
  · split at hs <;> rename_i hc
    · have := h.closedOutput.mp hc
      rw [hm] at this
      cases this
    · simp only [Option.some.injEq] at hs
      subst hs
      exact inv_closeOutput_close h hm
  · cases hs

theorem outputStep_inv {cfg : Cfg} {s s' : State} (h : Inv cfg s)
    (hs : outputStep s = some s') : Inv cfg s' := by
  unfold outputStep at hs
  split at hs <;> rename_i hm
  · split at hs <;> rename_i hc
    · split at hs <;> rename_i hwg
      · have := h.wgOut
        rw [hm] at this
        simp at this
        omega
      · simp only [Option.some.injEq] at hs
        subst hs
        exact inv_outputExit h hm hc
    · cases hs
  · cases hs

/-- Every transition preserves the invariant. -/
theorem step_inv {cfg : Cfg} {s s' : State} {a : Action} (h : Inv cfg s)
    (hs : step cfg s a = some s') : Inv cfg s' := by
  unfold step at hs
  split at hs
  · cases hs
  · cases a with
    | main => exact mainStep_inv h hs
    | https i => exact httpsStep_inv h hs
    | forward i j => exact forwardStep_inv h hs
    | http j => exact httpStep_inv h hs
    | closeHttp => exact closeHttpStep_inv h hs
    | output => exact outputStep_inv h hs
    | closeOutput => exact closeOutputStep_inv h hs

theorem exec_inv {cfg : Cfg} {s s' : State} {as : List Action} (h : Inv cfg s)
    (hs : exec cfg s as = some s') : Inv cfg s' := by
  induction as generalizing s with
  | nil =>
    simp only [exec, Option.some.injEq] at hs
    subst hs
    exact h
  | cons a as ih =>
    simp only [exec] at hs
    split at hs
    · rename_i s1 h1
      exact ih (step_inv h h1) hs
    · cases hs

/-- The invariant holds in every reachable state. -/
theorem reachable_inv {cfg : Cfg} {s : State} (h : Reachable cfg s) : Inv cfg s := by
  obtain ⟨as, has⟩ := h
  exact exec_inv (inv_init cfg) has

/-! ### Consequences of the invariant -/

theorem sum_map_eq_zero {α : Type} (f : α → Nat) (l : List α) (h : ∀ a ∈ l, f a = 0) :
    (l.map f).sum = 0 := by
  induction l with
  | nil => rfl
  | cons x xs ih =>
    simp only [List.map_cons, List.sum_cons]
    rw [h x (List.mem_cons_self _ _), ih (fun a ha => h a (List.mem_cons_of_mem _ ha))]

theorem Inv.https_exited_of_closedHttp {cfg : Cfg} {s : State} (h : Inv cfg s)
    (hc : s.httpURLsClosed = true) : ∀ w ∈ s.https, w = .exited := by
  have h0 := h.httpsWG_of_closedHttp hc
  rw [h.wgHttps] at h0
  exact https_exited_mem_of_sum h0

theorem Inv.exited_of_closedOutput {cfg : Cfg} {s : State} (h : Inv cfg s)
    (hc : s.outputClosed = true) :
    (∀ w ∈ s.https, w = .exited) ∧ (∀ v ∈ s.http, v = .exited) := by
  obtain ⟨h1, h2⟩ := h.wg_of_closedOutput hc
  rw [h.wgHttp] at h1
  rw [h.wgHttps] at h2
  exact ⟨https_exited_mem_of_sum h2, http_exited_mem_of_sum h1⟩

theorem Inv.phase_of_closedHttp {cfg : Cfg} {s : State} (h : Inv cfg s)
    (hc : s.httpURLsClosed = true) : 3 ≤ s.main.phase := by
  have hdone := h.closedHttp.mp hc
  by_contra hlt
  have := h.spawnedCloseHttp.mpr (by omega)
  rw [this] at hdone
  cases hdone

theorem Inv.phase_of_closedOutput {cfg : Cfg} {s : State} (h : Inv cfg s)
    (hc : s.outputClosed = true) : 5 ≤ s.main.phase := by
  have hdone := h.closedOutput.mp hc
  by_contra hlt
  have := h.spawnedCloseOutput.mpr (by omega)
  rw [this] at hdone
  cases hdone

/-- In a completed run `output` is closed. -/
theorem Inv.closedOutput_of_done {cfg : Cfg} {s : State} (h : Inv cfg s)
    (hd : s.main = .done) : s.outputClosed = true := by
  have hwg := h.waitedOutput hd
  have hout := h.wgOut
  have hsp := h.spawnedOutput
  rw [hd] at hsp
  simp only [Main.phase] at hsp
  apply h.exitedOutput
  cases ho : s.outputWorker with
  | notSpawned =>
    have := hsp.mp ho
    omega
  | recv =>
    rw [ho] at hout
    simp at hout
    omega
  | exited => rfl

theorem mem_httpsOut (cfg : Cfg) (h x : String) :
    x ∈ httpsOut cfg h ↔ x = "https://" ++ h ∧ isValidResponse cfg.client x = true := by
  unfold httpsOut
  split
  · rename_i hv
    constructor
    · intro hx
      have : x = "https://" ++ h := by simpa using hx
      subst this
      exact ⟨rfl, hv⟩
    · rintro ⟨rfl, _⟩
      simp
  · rename_i hv
    constructor
    · intro hx
      simp at hx
    · rintro ⟨rfl, hx⟩
      exact absurd hx hv

theorem mem_httpOut (cfg : Cfg) (h x : String) :
    x ∈ httpOut cfg h ↔ x = "http://" ++ h ∧ isValidResponse cfg.client x = true := by
  unfold httpOut
  split
  · rename_i hv
    constructor
    · intro hx
      have : x = "http://" ++ h := by simpa using hx
      subst this
      exact ⟨rfl, hv⟩
    · rintro ⟨rfl, _⟩
      simp
  · rename_i hv
    constructor
    · intro hx
      simp at hx
    · rintro ⟨rfl, hx⟩
      exact absurd hx hv

theorem owedBy_pos_iff (cfg : Cfg) (x : String) (hs : List String) :
    0 < owedBy cfg x hs ↔ ∃ h ∈ hs, x ∈ httpsOut cfg h ∨ x ∈ httpOut cfg h := by
  induction hs with
  | nil => simp [owedBy]
  | cons a as ih =>
    have hcons : owedBy cfg x (a :: as) =
        (httpsOut cfg a).count x + (httpOut cfg a).count x + owedBy cfg x as := by
      simp [owedBy]
    rw [hcons]
    constructor
    · intro hpos
      by_cases h1 : 0 < (httpsOut cfg a).count x
      · exact ⟨a, List.mem_cons_self _ _, Or.inl (List.count_pos_iff.mp h1)⟩
      · by_cases h2 : 0 < (httpOut cfg a).count x
        · exact ⟨a, List.mem_cons_self _ _, Or.inr (List.count_pos_iff.mp h2)⟩
        · obtain ⟨h, hh, hx⟩ := ih.mp (by omega)
          exact ⟨h, List.mem_cons_of_mem _ hh, hx⟩
    · rintro ⟨h, hh, hx⟩
      rcases List.mem_cons.mp hh with rfl | hh
      · rcases hx with hx | hx
        · have := List.count_pos_iff.mpr hx
          omega
        · have := List.count_pos_iff.mpr hx
          omega
      · have := ih.mpr ⟨h, hh, hx⟩
        omega

/-- In a completed run the output worker has received each URL exactly as often
as the probes of the input produce it. -/
theorem Inv.received_count {cfg : Cfg} {s : State} (h : Inv cfg s) (hd : s.main = .done)
    (x : String) : s.received.count x = owedBy cfg x (cfg.lines.map cfg.lower) := by
  have hc := h.closedOutput_of_done hd
  obtain ⟨e1, e2⟩ := h.exited_of_closedOutput hc
  have hb := h.outputBalance x
  have z1 : (s.https.map (HttpsWorker.owed cfg x)).sum = 0 :=
    sum_map_eq_zero _ _ (fun w hw => by rw [e1 w hw]; rfl)
  have z2 : (s.http.map (HttpWorker.owed cfg x)).sum = 0 :=
    sum_map_eq_zero _ _ (fun v hv => by rw [e2 v hv]; rfl)
  rw [z1, z2, hd] at hb
  simp only [Main.hosts, owedBy, List.map_nil, List.sum_nil] at hb
  simp only [owedBy]
  omega

theorem expectedURL_iff_owed (cfg : Cfg) (u : String) :
    expectedURL cfg u ↔ 0 < owedBy cfg u (cfg.lines.map cfg.lower) := by
  rw [owedBy_pos_iff]
  unfold expectedURL
  constructor
  · rintro (⟨h, hh, hu, hv⟩ | ⟨h, hh, hu, hv⟩)
    · exact ⟨cfg.lower h, List.mem_map_of_mem _ hh, Or.inl ((mem_httpsOut _ _ _).mpr ⟨hu, hv⟩)⟩
    · exact ⟨cfg.lower h, List.mem_map_of_mem _ hh, Or.inr ((mem_httpOut _ _ _).mpr ⟨hu, hv⟩)⟩
  · rintro ⟨h', hh', hx⟩
    obtain ⟨h, hh, rfl⟩ := List.mem_map.mp hh'
    rcases hx with hx | hx
    · obtain ⟨hu, hv⟩ := (mem_httpsOut _ _ _).mp hx
      exact Or.inl ⟨h, hh, hu, hv⟩
    · obtain ⟨hu, hv⟩ := (mem_httpOut _ _ _).mp hx
      exact Or.inr ⟨h, hh, hu, hv⟩

theorem Inv.received_iff {cfg : Cfg} {s : State} (h : Inv cfg s) (hd : s.main = .done)
    (u : String) : u ∈ s.received ↔ expectedURL cfg u := by
  rw [expectedURL_iff_owed, ← h.received_count hd u]
  exact List.count_pos_iff.symm

theorem example_reachable : Reachable exampleCfg exampleFinal :=
  ⟨exampleSchedule, by decide⟩

/-- C3: for every input, every network (liveness oracle) and every completed
run, the set of validated URLs the output worker received is exactly the set of
`https://` + lower(h) and `http://` + lower(h), h an input line, that are live.
Any two completed runs therefore deliver the same set, and a hostname whose
HTTPS and HTTP probes are both live has both URLs delivered. -/
theorem validated_set (cfg : Cfg) (s : State) (hr : Reachable cfg s) (hd : s.main = .done) :
    (∀ u, u ∈ s.received ↔ expectedURL cfg u) ∧
    (∀ s2, Reachable cfg s2 → s2.main = .done → ∀ u, u ∈ s.received ↔ u ∈ s2.received) ∧
    (∀ h ∈ cfg.lines,
      isValidResponse cfg.client ("https://" ++ cfg.lower h) = true →
      isValidResponse cfg.client ("http://" ++ cfg.lower h) = true →
      "https://" ++ cfg.lower h ∈ s.received ∧ "http://" ++ cfg.lower h ∈ s.received) := by
  have hi := reachable_inv hr
  refine ⟨hi.received_iff hd, ?_, ?_⟩
  · intro s2 hr2 hd2 u
    rw [hi.received_iff hd, (reachable_inv hr2).received_iff hd2]
  · intro h hh h1 h2
    exact ⟨(hi.received_iff hd _).mpr (Or.inl ⟨h, hh, rfl, h1⟩),
      (hi.received_iff hd _).mpr (Or.inr ⟨h, hh, rfl, h2⟩)⟩

/-- C3 on the example scenario: the completed run delivers `https://a.example`
and `http://b.example`, and these are predicted, while `http://a.example` and
`https://b.example` are not. -/
theorem validated_set_witness :
    exampleFinal.received = ["https://a.example", "http://b.example"] ∧
    expectedURL exampleCfg "https://a.example" ∧
    expectedURL exampleCfg "http://b.example" ∧
    ¬ expectedURL exampleCfg "http://a.example" ∧
    ¬ expectedURL exampleCfg "https://b.example" :=
  ⟨rfl,
   ((validated_set exampleCfg exampleFinal example_reachable rfl).1 _).mp (by decide),
   ((validated_set exampleCfg exampleFinal example_reachable rfl).1 _).mp (by decide),
   fun h => absurd (((validated_set exampleCfg exampleFinal example_reachable rfl).1 _).mpr h)
     (by decide),
   fun h => absurd (((validated_set exampleCfg exampleFinal example_reachable rfl).1 _).mpr h)
     (by decide)⟩

/-- The example scenario of the specification: whatever the interleaving, a
completed run over `a.example` and `b.example` delivers exactly
`https://a.example` and `http://b.example`. -/
theorem example_scenario_set (s : State) (hr : Reachable exampleCfg s) (hd : s.main = .done)
    (u : String) :
    u ∈ s.received ↔ u = "https://a.example" ∨ u = "http://b.example" := by
  rw [(reachable_inv hr).received_iff hd]
  unfold expectedURL
  have hlines : exampleCfg.lines = ["a.example", "b.example"] := rfl
  constructor
  · rintro (⟨h, hh, hu, hv⟩ | ⟨h, hh, hu, hv⟩)
    · rw [hlines] at hh
      simp only [List.mem_cons, List.mem_singleton, List.not_mem_nil, or_false] at hh
      rcases hh with rfl | rfl
      · left
        rw [hu]
        decide
      · exfalso
        rw [hu] at hv
        revert hv
        decide
    · rw [hlines] at hh
      simp only [List.mem_cons, List.mem_singleton, List.not_mem_nil, or_false] at hh
      rcases hh with rfl | rfl
      · exfalso
        rw [hu] at hv
        revert hv
        decide
      · right
        rw [hu]
        decide
  · rintro (rfl | rfl)
    · exact Or.inl ⟨"a.example", by decide, by decide, by decide⟩
    · exact Or.inr ⟨"b.example", by decide, by decide, by decide⟩

theorem poolSize_cast (c : Int) : (poolSize c : Int) = max 0 (c.tdiv 2) := by
  unfold poolSize
  omega

theorem tdiv_two_of_nonneg (c : Int) (h : 0 ≤ c) : c.tdiv 2 = c / 2 :=
  Int.tdiv_eq_ediv h (by decide)

/-- No pool ever has more workers than the pool size. -/
theorem Inv.length_le {cfg : Cfg} {s : State} (hi : Inv cfg s) :
    s.https.length ≤ poolSize cfg.concurrency ∧ s.http.length ≤ poolSize cfg.concurrency := by
  have hcast := poolSize_cast cfg.concurrency
  constructor
  · cases hm : s.main with
    | spawnHttps i =>
      obtain ⟨h0, h1, h2, _⟩ := hi.loopHttps i hm
      omega
    | _ =>
      have := hi.lenHttps (by rw [hm]; simp [Main.phase])
      omega
  · cases hm : s.main with
    | spawnHttps i =>
      obtain ⟨_, _, _, h3⟩ := hi.loopHttps i hm
      rw [h3]
      simp
    | spawnHttp i =>
      obtain ⟨h0, h1, h2⟩ := hi.loopHttp i hm
      omega
    | _ =>
      have := hi.lenHttp (by rw [hm]; simp [Main.phase])
      omega

/-- C4: in every completed run over N input lines, the HTTPS stage was handed
exactly the lower-cased input lines, and the HTTP stage received, whatever the
HTTPS probes returned, the same multiset of hostnames, each occurrence once; in
particular it received exactly N hostnames. -/
theorem forwarding_complete (cfg : Cfg) (s : State) (hr : Reachable cfg s)
    (hd : s.main = .done) :
    s.submitted = cfg.lines.map cfg.lower ∧
    s.forwarded.Perm s.submitted ∧
    s.forwarded.length = cfg.lines.length := by
  have hi := reachable_inv hr
  have hsub : s.submitted = cfg.lines.map cfg.lower := by
    have := hi.submittedLog
    rw [hd] at this
    simpa [Main.hosts] using this
  have hc := hi.closedOutput_of_done hd
  obtain ⟨e1, _⟩ := hi.exited_of_closedOutput hc
  have hperm : s.forwarded.Perm s.submitted := by
    rw [hsub, List.perm_iff_count]
    intro x
    have hb := hi.hostsBalance x
    have z1 : (s.https.map (HttpsWorker.held x)).sum = 0 :=
      sum_map_eq_zero _ _ (fun w hw => by rw [e1 w hw]; rfl)
    rw [z1, hd] at hb
    simp only [Main.hosts, List.count_nil] at hb
    omega
  refine ⟨hsub, hperm, ?_⟩
  rw [hperm.length_eq, hsub, List.length_map]

/-- C4 on the example scenario: both hostnames reached the HTTP stage although
one HTTPS probe was live and the other was not. -/
theorem forwarding_complete_witness :
    exampleFinal.forwarded.Perm exampleFinal.submitted ∧ exampleFinal.forwarded.length = 2 :=
  ⟨(forwarding_complete exampleCfg exampleFinal example_reachable rfl).2.1,
   (forwarding_complete exampleCfg exampleFinal example_reachable rfl).2.2⟩

/-- C6: in every reachable state, for every input and concurrency level, no
panic has occurred (no send on a closed channel, no second close, no negative
wait-group counter); no goroutine is blocked in a send on a closed channel and
no goroutine is about to close a closed channel; `httpURLs` is closed only when
all workers of the HTTPS pool have been started and have exited; `output` is
closed only when all workers of both pools have been started and have exited;
and once the whole HTTP pool has exited, so has the HTTPS pool. -/
theorem channels_safe (cfg : Cfg) (s : State) (hr : Reachable cfg s) :
    s.fault = none ∧
    (∀ d rest, s.main = .send d rest → s.httpsURLsClosed = false) ∧
    (∀ t u, HttpsWorker.sendOut t u ∈ s.https → s.outputClosed = false) ∧
    (∀ u, HttpsWorker.forward u ∈ s.https → s.httpURLsClosed = false) ∧
    (∀ t, HttpWorker.sendOut t ∈ s.http → s.outputClosed = false) ∧
    (s.main = .closeHttps → s.httpsURLsClosed = false) ∧
    (s.closeHttp = .closing → s.httpURLsClosed = false) ∧
    (s.closeOutput = .closing → s.outputClosed = false) ∧
    (s.httpURLsClosed = true →
      s.https.length = poolSize cfg.concurrency ∧ ∀ w ∈ s.https, w = .exited) ∧
    (s.outputClosed = true →
      s.http.length = poolSize cfg.concurrency ∧ (∀ v ∈ s.http, v = .exited) ∧
      s.https.length = poolSize cfg.concurrency ∧ (∀ w ∈ s.https, w = .exited)) ∧
    (s.http.length = poolSize cfg.concurrency → (∀ v ∈ s.http, v = .exited) →
      ∀ w ∈ s.https, w = .exited) := by
  have hi := reachable_inv hr
  refine ⟨hi.noFault, ?_, ?_, ?_, ?_, ?_, ?_, ?_, ?_, ?_, ?_⟩
  · intro d rest hm
    rw [Bool.eq_false_iff]
    intro hc
    have := hi.closedHttps.mp hc
    rw [hm] at this
    simp [Main.phase] at this
  · intro t u hw
    rw [Bool.eq_false_iff]
    intro hc
    have := (hi.exited_of_closedOutput hc).1 _ hw
    cases this
  · intro u hw
    rw [Bool.eq_false_iff]
    intro hc
    have := hi.https_exited_of_closedHttp hc _ hw
    cases this
  · intro t hv
    rw [Bool.eq_false_iff]
    intro hc
    have := (hi.exited_of_closedOutput hc).2 _ hv
    cases this
  · intro hm
    rw [Bool.eq_false_iff]
    intro hc
    have := hi.closedHttps.mp hc
    rw [hm] at this
    simp [Main.phase] at this
  · intro hm
    rw [Bool.eq_false_iff]
    intro hc
    have := hi.closedHttp.mp hc
    rw [hm] at this
    cases this
  · intro hm
    rw [Bool.eq_false_iff]
    intro hc
    have := hi.closedOutput.mp hc
    rw [hm] at this
    cases this
  · intro hc
    have := hi.phase_of_closedHttp hc
    exact ⟨hi.lenHttps (by omega), hi.https_exited_of_closedHttp hc⟩
  · intro hc
    have := hi.phase_of_closedOutput hc
    obtain ⟨e1, e2⟩ := hi.exited_of_closedOutput hc
    exact ⟨hi.lenHttp (by omega), e2, hi.lenHttps (by omega), e1⟩
  · intro hlen hall w hw
    cases hhttp : s.http with
    | nil =>
      have h0 : s.https.length = 0 := by
        have := hi.length_le.1
        rw [hhttp] at hlen
        simp only [List.length_nil] at hlen
        omega
      rw [List.length_eq_zero.mp h0] at hw
      cases hw
    | cons v vs =>
      have hv : v ∈ s.http := by
        rw [hhttp]
        exact List.mem_cons_self _ _
      have hex := hall v hv
      subst hex
      exact hi.https_exited_of_closedHttp (hi.exitedHttp hv) w hw

/-- C6 on the example scenario: at the end of the run no panic occurred and,
`httpURLs` being closed, the whole HTTPS pool has been started. -/
theorem channels_safe_witness :
    exampleFinal.fault = none ∧
    exampleFinal.https.length = poolSize exampleCfg.concurrency :=
  ⟨(channels_safe exampleCfg exampleFinal example_reachable).1,
   ((channels_safe exampleCfg exampleFinal example_reachable).2.2.2.2.2.2.2.2.1 rfl).1⟩

/-- C7: for every concurrency level c, no pool ever has more than
max(0, c / 2) workers (truncating division), and once the main goroutine is
past the two start-up loops each pool has exactly that many, so the two pools
have the same size; for c >= 0 the pool size is floor(c / 2), the total
2 * floor(c / 2) is at most c, an odd c gives 2 * floor(c / 2) = c - 1, and
c = 0 or c = 1 gives zero workers in each pool. -/
theorem pool_sizes (cfg : Cfg) (s : State) (hr : Reachable cfg s) :
    s.https.length ≤ poolSize cfg.concurrency ∧
    s.http.length ≤ poolSize cfg.concurrency ∧
    (2 ≤ s.main.phase →
      s.https.length = poolSize cfg.concurrency ∧ s.http.length = poolSize cfg.concurrency) ∧
    (poolSize cfg.concurrency : Int) = max 0 (cfg.concurrency.tdiv 2) ∧
    (0 ≤ cfg.concurrency →
      (poolSize cfg.concurrency : Int) = cfg.concurrency / 2 ∧
      2 * (poolSize cfg.concurrency : Int) ≤ cfg.concurrency) ∧
    (0 ≤ cfg.concurrency → cfg.concurrency % 2 = 1 →
      2 * (poolSize cfg.concurrency : Int) = cfg.concurrency - 1) ∧
    (cfg.concurrency = 0 ∨ cfg.concurrency = 1 → poolSize cfg.concurrency = 0) := by
  have hi := reachable_inv hr
  have hcast := poolSize_cast cfg.concurrency
  refine ⟨hi.length_le.1, hi.length_le.2, ?_, hcast, ?_, ?_, ?_⟩
  · intro hp
    exact ⟨hi.lenHttps (by omega), hi.lenHttp hp⟩
  · intro h0
    have := tdiv_two_of_nonneg _ h0
    omega
  · intro h0 hodd
    have := tdiv_two_of_nonneg _ h0
    omega
  · intro h01
    have h0 : 0 ≤ cfg.concurrency := by omega
    have := tdiv_two_of_nonneg _ h0
    omega

/-- C7 on the example scenario (c = 2): one worker per pool. -/
theorem pool_sizes_witness :
    exampleFinal.https.length = 1 ∧ exampleFinal.http.length = 1 :=
  (pool_sizes exampleCfg exampleFinal example_reachable).2.2.1 (by decide)

/-! ### Termination -/

theorem mainStep_decreases {cfg : Cfg} {s s' : State} (hf : s.fault = none)
    (hs : mainStep cfg s = some s') : measure cfg s' < measure cfg s := by
  unfold mainStep at hs
  split at hs <;> rename_i hm <;> (try split at hs) <;>
    simp only [Option.some.injEq, reduceCtorEq] at hs <;> (try subst hs) <;>
    simp only [measure, hm, hf, Main.rank, State.panic, Closer.rank, OutputWorker.rank,
      List.map_append, List.sum_append, List.map_cons, List.map_nil, List.sum_cons,
      List.sum_nil, HttpsWorker.rank, HttpWorker.rank, List.length_cons, if_true,
      reduceCtorEq, if_false] <;>
    omega

theorem httpsStep_decreases {cfg : Cfg} {s s' : State} {i : Nat} (hf : s.fault = none)
    (hs : httpsStep cfg s i = some s') : measure cfg s' < measure cfg s := by
  unfold httpsStep at hs
  split at hs <;> rename_i hw
  · split at hs
    · split at hs <;> simp only [Option.some.injEq] at hs <;> subst hs
      · simp only [measure, hf, State.panic, if_true, reduceCtorEq, if_false]
        omega
      · have r := sum_map_set HttpsWorker.rank s.https i _ .exited hw
        simp only [HttpsWorker.rank] at r
        simp only [measure, hf, if_true]
        omega
    · split at hs <;> rename_i hm
      · simp only [Option.some.injEq] at hs
        subst hs
        rename_i domain rest
        have r := sum_map_set HttpsWorker.rank s.https i _ (.probe domain) hw
        simp only [HttpsWorker.rank] at r
        simp only [measure, hf, hm, Main.rank, if_true]
        omega
      · cases hs
  · rename_i url
    split at hs <;> simp only [Option.some.injEq] at hs <;> subst hs
    · have r := sum_map_set HttpsWorker.rank s.https i _ (.sendOut ("https://" ++ url) url) hw
      simp only [HttpsWorker.rank] at r
      simp only [measure, hf, if_true]
      omega
    · have r := sum_map_set HttpsWorker.rank s.https i _ (.forward url) hw
      simp only [HttpsWorker.rank] at r
      simp only [measure, hf, if_true]
      omega
  · rename_i target url
    split at hs
    · simp only [Option.some.injEq] at hs
      subst hs
      simp only [measure, hf, State.panic, if_true, reduceCtorEq, if_false]
      omega
    · split at hs
      · simp only [Option.some.injEq] at hs
        subst hs
        have r := sum_map_set HttpsWorker.rank s.https i _ (.forward url) hw
        simp only [HttpsWorker.rank] at r
        simp only [measure, hf, if_true]
        omega
      · cases hs
  · split at hs
    · simp only [Option.some.injEq] at hs
      subst hs
      simp only [measure, hf, State.panic, if_true, reduceCtorEq, if_false]
      omega
    · cases hs
  · cases hs
  · cases hs

theorem forwardStep_decreases {cfg : Cfg} {s s' : State} {i j : Nat} (hf : s.fault = none)
    (hs : forwardStep s i j = some s') : measure cfg s' < measure cfg s := by
  unfold forwardStep at hs
  split at hs
  · rename_i url hw hv
    split at hs
    · cases hs
    · simp only [Option.some.injEq] at hs
      subst hs
      have r1 := sum_map_set HttpsWorker.rank s.https i _ .recv hw
      have r2 := sum_map_set HttpWorker.rank s.http j _ (.probe url) hv
      simp only [HttpsWorker.rank] at r1
      simp only [HttpWorker.rank] at r2
      simp only [measure, hf, if_true]
      omega
  · cases hs

theorem httpStep_decreases {cfg : Cfg} {s s' : State} {j : Nat} (hf : s.fault = none)
    (hs : httpStep cfg s j = some s') : measure cfg s' < measure cfg s := by
  unfold httpStep at hs
  split at hs <;> rename_i hv
  · split at hs
    · split at hs <;> simp only [Option.some.injEq] at hs <;> subst hs
      · simp only [measure, hf, State.panic, if_true, reduceCtorEq, if_false]
        omega
      · have r := sum_map_set HttpWorker.rank s.http j _ .exited hv
        simp only [HttpWorker.rank] at r
        simp only [measure, hf, if_true]
        omega
    · cases hs
  · rename_i url
    split at hs <;> simp only [Option.some.injEq] at hs <;> subst hs
    · have r := sum_map_set HttpWorker.rank s.http j _ (.sendOut ("http://" ++ url)) hv
      simp only [HttpWorker.rank] at r
      simp only [measure, hf, if_true]
      omega
    · have r := sum_map_set HttpWorker.rank s.http j _ .recv hv
      simp only [HttpWorker.rank] at r
      simp only [measure, hf, if_true]
      omega
  · split at hs
    · simp only [Option.some.injEq] at hs
      subst hs
      simp only [measure, hf, State.panic, if_true, reduceCtorEq, if_false]
      omega
    · split at hs
      · simp only [Option.some.injEq] at hs
        subst hs
        have r := sum_map_set HttpWorker.rank s.http j _ .recv hv
        simp only [HttpWorker.rank] at r
        simp only [measure, hf, if_true]
        omega
      · cases hs
  · cases hs
  · cases hs

theorem closeHttpStep_decreases {cfg : Cfg} {s s' : State} (hf : s.fault = none)
    (hs : closeHttpStep s = some s') : measure cfg s' < measure cfg s := by
  unfold closeHttpStep at hs
  split at hs <;> rename_i hm
  · split at hs
    · simp only [Option.some.injEq] at hs
      subst hs
      simp only [measure, hf, hm, Closer.rank, if_true]
      omega
    · cases hs
  · split at hs <;> simp only [Option.some.injEq] at hs <;> subst hs
    · simp only [measure, hf, State.panic, if_true, reduceCtorEq, if_false]
      omega
    · simp only [measure, hf, hm, Closer.rank, if_true]
      omega
  · cases hs

theorem closeOutputStep_decreases {cfg : Cfg} {s s' : State} (hf : s.fault = none)
    (hs : closeOutputStep s = some s') : measure cfg s' < measure cfg s := by
  unfold closeOutputStep at hs
  split at hs <;> rename_i hm
  · split at hs
    · simp only [Option.some.injEq] at hs
      subst hs
      simp only [measure, hf, hm, Closer.rank, if_true]
      omega
    · cases hs
  · split at hs <;> simp only [Option.some.injEq] at hs <;> subst hs
    · simp only [measure, hf, State.panic, if_true, reduceCtorEq, if_false]
      omega
    · simp only [measure, hf, hm, Closer.rank, if_true]
      omega
  · cases hs

theorem outputStep_decreases {cfg : Cfg} {s s' : State} (hf : s.fault = none)
    (hs : outputStep s = some s') : measure cfg s' < measure cfg s := by
  unfold outputStep at hs
  split at hs <;> rename_i hm
  · split at hs
    · split at hs <;> simp only [Option.some.injEq] at hs <;> subst hs
      · simp only [measure, hf, State.panic, if_true, reduceCtorEq, if_false]
        omega
      · simp only [measure, hf, hm, OutputWorker.rank, if_true]
        omega
    · cases hs
  · cases hs

/-- Every transition lowers the measure. -/
theorem step_decreases {cfg : Cfg} {s s' : State} {a : Action}
    (hs : step cfg s a = some s') : measure cfg s' < measure cfg s := by
  unfold step at hs
  split at hs
  · cases hs
  · rename_i hg
    have hf : s.fault = none := by
      by_contra hne
      exact hg (Or.inl hne)
    cases a with
    | main => exact mainStep_decreases hf hs
    | https i => exact httpsStep_decreases hf hs
    | forward i j => exact forwardStep_decreases hf hs
    | http j => exact httpStep_decreases hf hs
    | closeHttp => exact closeHttpStep_decreases hf hs
    | output => exact outputStep_decreases hf hs
    | closeOutput => exact closeOutputStep_decreases hf hs

/-- A schedule that runs from `s` is no longer than the measure of `s`. -/
theorem exec_length_le {cfg : Cfg} {s s' : State} {as : List Action}
    (hs : exec cfg s as = some s') : as.length + measure cfg s' ≤ measure cfg s := by
  induction as generalizing s with
  | nil =>
    simp only [exec, Option.some.injEq] at hs
    subst hs
    simp
  | cons a as ih =>
    simp only [exec] at hs
    split at hs
    · rename_i s1 h1
      have := ih hs
      have := step_decreases h1
      simp only [List.length_cons]
      omega
    · cases hs

/-! ### Absence of deadlock -/

theorem step_eq {cfg : Cfg} {s : State} (hf : s.fault = none) (hd : s.main ≠ .done)
    (a : Action) :
    step cfg s a =
      match a with
      | .main => mainStep cfg s
      | .https i => httpsStep cfg s i
      | .forward i j => forwardStep s i j
      | .http j => httpStep cfg s j
      | .closeHttp => closeHttpStep s
      | .output => outputStep s
      | .closeOutput => closeOutputStep s := by
  unfold step
  rw [if_neg]
  rintro (h | h)
  · exact h hf
  · exact hd h

theorem enabled_of_main {cfg : Cfg} {s : State} (hf : s.fault = none) (hd : s.main ≠ .done)
    (h : ∃ s', mainStep cfg s = some s') : Enabled cfg s := by
  obtain ⟨s', hs⟩ := h
  exact ⟨.main, s', by rw [step_eq hf hd]; exact hs⟩

theorem enabled_of_https {cfg : Cfg} {s : State} (hf : s.fault = none) (hd : s.main ≠ .done)
    {i : Nat} (h : ∃ s', httpsStep cfg s i = some s') : Enabled cfg s := by
  obtain ⟨s', hs⟩ := h
  exact ⟨.https i, s', by rw [step_eq hf hd]; exact hs⟩

theorem enabled_of_http {cfg : Cfg} {s : State} (hf : s.fault = none) (hd : s.main ≠ .done)
    {j : Nat} (h : ∃ s', httpStep cfg s j = some s') : Enabled cfg s := by
  obtain ⟨s', hs⟩ := h
  exact ⟨.http j, s', by rw [step_eq hf hd]; exact hs⟩

theorem https_probe_moves {cfg : Cfg} {s : State} {i : Nat} {u : String}
    (hw : s.https[i]? = some (.probe u)) : ∃ s', httpsStep cfg s i = some s' := by
  unfold httpsStep
  rw [hw]
  dsimp only
  split <;> exact ⟨_, rfl⟩

theorem http_probe_moves {cfg : Cfg} {s : State} {j : Nat} {u : String}
    (hv : s.http[j]? = some (.probe u)) : ∃ s', httpStep cfg s j = some s' := by
  unfold httpStep
  rw [hv]
  dsimp only
  split <;> exact ⟨_, rfl⟩

/-- Once the output worker has been started, it is ready to receive for as long
as `output` is open. -/
theorem Inv.output_ready {cfg : Cfg} {s : State} (hi : Inv cfg s) (hp : 5 ≤ s.main.phase)
    (hc : ¬ s.outputClosed = true) : s.outputWorker = .recv := by
  cases ho : s.outputWorker with
  | notSpawned =>
    have := hi.spawnedOutput.mp ho
    omega
  | recv => rfl
  | exited => exact absurd (hi.exitedOutput ho) hc

theorem https_sendOut_moves {cfg : Cfg} {s : State} (hi : Inv cfg s) (hp : 5 ≤ s.main.phase)
    {i : Nat} {t u : String} (hw : s.https[i]? = some (.sendOut t u)) :
    ∃ s', httpsStep cfg s i = some s' := by
  unfold httpsStep
  rw [hw]
  dsimp only
  split
  · exact ⟨_, rfl⟩
  · rename_i hc
    rw [hi.output_ready hp hc]
    exact ⟨_, rfl⟩

theorem http_sendOut_moves {cfg : Cfg} {s : State} (hi : Inv cfg s) (hp : 5 ≤ s.main.phase)
    {j : Nat} {t : String} (hv : s.http[j]? = some (.sendOut t)) :
    ∃ s', httpStep cfg s j = some s' := by
  unfold httpStep
  rw [hv]
  dsimp only
  split
  · exact ⟨_, rfl⟩
  · rename_i hc
    rw [hi.output_ready hp hc]
    exact ⟨_, rfl⟩

theorem https_recv_moves {cfg : Cfg} {s : State} {i : Nat}
    (hw : s.https[i]? = some .recv)
    (h : s.httpsURLsClosed = true ∨ ∃ d rest, s.main = .send d rest) :
    ∃ s', httpsStep cfg s i = some s' := by
  unfold httpsStep
  rw [hw]
  dsimp only
  split
  · split <;> exact ⟨_, rfl⟩
  · rename_i hc
    rcases h with h | ⟨d, rest, hm⟩
    · exact absurd h hc
    · rw [hm]
      exact ⟨_, rfl⟩

theorem http_recv_moves {cfg : Cfg} {s : State} {j : Nat}
    (hv : s.http[j]? = some .recv) (h : s.httpURLsClosed = true) :
    ∃ s', httpStep cfg s j = some s' := by
  unfold httpStep
  rw [hv]
  dsimp only
  rw [if_pos h]
  split <;> exact ⟨_, rfl⟩

theorem getElem?_zero_of_length_pos {α : Type} (l : List α) (h : 0 < l.length) :
    ∃ a, l[0]? = some a ∧ a ∈ l := by
  cases l with
  | nil => simp at h
  | cons a as => exact ⟨a, by simp, List.mem_cons_self _ _⟩

theorem length_pos_of_getElem? {α : Type} {l : List α} {i : Nat} {a : α}
    (h : l[i]? = some a) : 0 < l.length := by
  cases l with
  | nil => simp at h
  | cons a as => simp

/-- The statements of the main goroutine that never block. -/
theorem Inv.progress_early {cfg : Cfg} {s : State} (hi : Inv cfg s)
    (h : s.main.phase < 5 ∨ (∃ r, s.main = .scan r) ∨ s.main = .closeHttps)
    (hd : s.main ≠ .done) : Enabled cfg s := by
  have hf := hi.noFault
  apply enabled_of_main hf hd
  unfold mainStep
  cases hm : s.main with
  | spawnHttps i =>
    dsimp only
    split <;> exact ⟨_, rfl⟩
  | spawnHttp i =>
    dsimp only
    split <;> exact ⟨_, rfl⟩
  | spawnCloseHttp => exact ⟨_, rfl⟩
  | spawnOutput => exact ⟨_, rfl⟩
  | spawnCloseOutput => exact ⟨_, rfl⟩
  | scan r =>
    cases r with
    | nil => exact ⟨_, rfl⟩
    | cons l r => exact ⟨_, rfl⟩
  | closeHttps =>
    dsimp only
    split <;> exact ⟨_, rfl⟩
  | send d r =>
    rw [hm] at h
    simp [Main.phase] at h
  | wait =>
    rw [hm] at h
    simp [Main.phase] at h
  | done => exact absurd hm hd

/-- The invariant rules out deadlock: in a state where the main goroutine has
not returned, some goroutine can move, provided each pool has a worker or
there is no input. -/
theorem Inv.progress {cfg : Cfg} {s : State} (hi : Inv cfg s)
    (hc : 1 ≤ poolSize cfg.concurrency ∨ cfg.lines = []) (hd : s.main ≠ .done) :
    Enabled cfg s := by
  have hf := hi.noFault
  by_cases hearly : s.main.phase < 5 ∨ (∃ r, s.main = .scan r) ∨ s.main = .closeHttps
  · exact hi.progress_early hearly hd
  have hp : 5 ≤ s.main.phase := by omega
  have hsw : (∃ d r, s.main = .send d r) ∨ s.main = .wait := by
    cases hm : s.main with
    | send d r => exact Or.inl ⟨d, r, rfl⟩
    | wait => exact Or.inr rfl
    | done => exact absurd hm hd
    | scan r => exact absurd (Or.inr (Or.inl ⟨r, hm⟩)) hearly
    | closeHttps => exact absurd (Or.inr (Or.inr hm)) hearly
    | _ =>
      rw [hm] at hp
      simp [Main.phase] at hp
  have hlen1 := hi.lenHttps (by omega)
  have hlen2 := hi.lenHttp (by omega)
  -- workers that are probing or delivering a result
  by_cases hP1 : ∃ (i : Nat) (u : String), s.https[i]? = some (HttpsWorker.probe u)
  · obtain ⟨i, u, hw⟩ := hP1
    exact enabled_of_https hf hd (https_probe_moves hw)
  by_cases hP2 : ∃ (j : Nat) (u : String), s.http[j]? = some (HttpWorker.probe u)
  · obtain ⟨j, u, hv⟩ := hP2
    exact enabled_of_http hf hd (http_probe_moves hv)
  by_cases hS1 : ∃ (i : Nat) (t u : String), s.https[i]? = some (HttpsWorker.sendOut t u)
  · obtain ⟨i, t, u, hw⟩ := hS1
    exact enabled_of_https hf hd (https_sendOut_moves hi hp hw)
  by_cases hS2 : ∃ (j : Nat) (t : String), s.http[j]? = some (HttpWorker.sendOut t)
  · obtain ⟨j, t, hv⟩ := hS2
    exact enabled_of_http hf hd (http_sendOut_moves hi hp hv)
  have hhttp : ∀ v ∈ s.http, v = .recv ∨ v = .exited := by
    intro v hv
    obtain ⟨j, hj⟩ := List.mem_iff_getElem?.mp hv
    cases v with
    | recv => exact Or.inl rfl
    | exited => exact Or.inr rfl
    | probe u => exact absurd ⟨j, u, hj⟩ hP2
    | sendOut t => exact absurd ⟨j, t, hj⟩ hS2
  -- a worker blocked in the hand-off on httpURLs
  by_cases hF : ∃ (i : Nat) (u : String), s.https[i]? = some (HttpsWorker.forward u)
  · obtain ⟨i, u, hw⟩ := hF
    by_cases hcl : s.httpURLsClosed = true
    · have hmove : ∃ s', httpsStep cfg s i = some s' := by
        unfold httpsStep
        rw [hw]
        dsimp only
        rw [if_pos hcl]
        exact ⟨_, rfl⟩
      exact enabled_of_https hf hd hmove
    · have hpos : 0 < s.http.length := by
        rw [hlen2, ← hlen1]
        exact length_pos_of_getElem? hw
      obtain ⟨v, hv0, hvm⟩ := getElem?_zero_of_length_pos s.http hpos
      rcases hhttp v hvm with rfl | rfl
      · refine ⟨.forward i 0, ?_⟩
        rw [step_eq hf hd]
        dsimp only
        unfold forwardStep
        rw [hw, hv0]
        dsimp only
        rw [if_neg hcl]
        exact ⟨_, rfl⟩
      · exact absurd (hi.exitedHttp hvm) hcl
  have hhttps : ∀ w ∈ s.https, w = .recv ∨ w = .exited := by
    intro w hw
    obtain ⟨i, hiw⟩ := List.mem_iff_getElem?.mp hw
    cases w with
    | recv => exact Or.inl rfl
    | exited => exact Or.inr rfl
    | probe u => exact absurd ⟨i, u, hiw⟩ hP1
    | sendOut t u => exact absurd ⟨i, t, u, hiw⟩ hS1
    | forward u => exact absurd ⟨i, u, hiw⟩ hF
  rcases hsw with ⟨d, r, hm⟩ | hm
  · -- the main goroutine is blocked in its send: a worker is ready to receive
    have hne : cfg.lines ≠ [] := by
      intro hnil
      have := hi.submittedLog
      rw [hm, hnil] at this
      simp [Main.hosts] at this
    have hpool : 1 ≤ poolSize cfg.concurrency := by
      rcases hc with hc | hc
      · exact hc
      · exact absurd hc hne
    obtain ⟨w, hw0, hwm⟩ := getElem?_zero_of_length_pos s.https (by omega)
    have hopen : ¬ s.httpsURLsClosed = true := by
      intro hcl
      have := hi.closedHttps.mp hcl
      rw [hm] at this
      simp [Main.phase] at this
    rcases hhttps w hwm with rfl | rfl
    · exact enabled_of_https hf hd (https_recv_moves hw0 (Or.inr ⟨d, r, hm⟩))
    · exact absurd (hi.exitedHttps hwm) hopen
  · -- the main goroutine waits for the output worker
    have hcl1 : s.httpsURLsClosed = true := hi.closedHttps.mpr (by rw [hm]; simp [Main.phase])
    by_cases hR1 : ∃ i : Nat, s.https[i]? = some HttpsWorker.recv
    · obtain ⟨i, hw⟩ := hR1
      exact enabled_of_https hf hd (https_recv_moves hw (Or.inl hcl1))
    have hwg1 : s.httpsWG = 0 := by
      rw [hi.wgHttps]
      apply sum_map_eq_zero
      intro w hw
      rcases hhttps w hw with rfl | rfl
      · obtain ⟨i, hiw⟩ := List.mem_iff_getElem?.mp hw
        exact absurd ⟨i, hiw⟩ hR1
      · rfl
    by_cases hcl2 : s.httpURLsClosed = true
    swap
    · refine ⟨.closeHttp, ?_⟩
      rw [step_eq hf hd]
      dsimp only
      unfold closeHttpStep
      cases hcs : s.closeHttp with
      | notSpawned =>
        have := hi.spawnedCloseHttp.mp hcs
        omega
      | waiting =>
        dsimp only
        rw [if_pos hwg1]
        exact ⟨_, rfl⟩
      | closing =>
        dsimp only
        split <;> exact ⟨_, rfl⟩
      | done => exact absurd (hi.closedHttp.mpr hcs) hcl2
    by_cases hR2 : ∃ j : Nat, s.http[j]? = some HttpWorker.recv
    · obtain ⟨j, hv⟩ := hR2
      exact enabled_of_http hf hd (http_recv_moves hv hcl2)
    have hwg2 : s.httpWG = 0 := by
      rw [hi.wgHttp]
      apply sum_map_eq_zero
      intro v hv
      rcases hhttp v hv with rfl | rfl
      · obtain ⟨j, hjv⟩ := List.mem_iff_getElem?.mp hv
        exact absurd ⟨j, hjv⟩ hR2
      · rfl
    by_cases hcl3 : s.outputClosed = true
    swap
    · refine ⟨.closeOutput, ?_⟩
      rw [step_eq hf hd]
      dsimp only
      unfold closeOutputStep
      cases hcs : s.closeOutput with
      | notSpawned =>
        have := hi.spawnedCloseOutput.mp hcs
        omega
      | waiting =>
        dsimp only
        rw [if_pos hwg2]
        exact ⟨_, rfl⟩
      | closing =>
        dsimp only
        split <;> exact ⟨_, rfl⟩
      | done => exact absurd (hi.closedOutput.mpr hcs) hcl3
    cases ho : s.outputWorker with
    | notSpawned =>
      have := hi.spawnedOutput.mp ho
      omega
    | recv =>
      refine ⟨.output, ?_⟩
      rw [step_eq hf hd]
      dsimp only
      unfold outputStep
      rw [ho]
      dsimp only
      rw [if_pos hcl3]
      split <;> exact ⟨_, rfl⟩
    | exited =>
      apply enabled_of_main hf hd
      unfold mainStep
      rw [hm]
      dsimp only
      have := hi.wgOut
      rw [ho] at this
      simp only [reduceCtorEq, if_false] at this
      rw [if_pos this]
      exact ⟨_, rfl⟩

/-! ### Termination of the pipeline -/

theorem one_le_poolSize_iff (c : Int) : 1 ≤ poolSize c ↔ 2 ≤ c := by
  have hcast := poolSize_cast c
  constructor
  · intro h
    by_contra hlt
    by_cases h0 : 0 ≤ c
    · have := tdiv_two_of_nonneg c h0
      omega
    · have hneg : c.tdiv 2 ≤ 0 := by
        have h1 : c.tdiv 2 = -((-c).tdiv 2) := by
          rw [Int.neg_tdiv, neg_neg]
        have h2 := tdiv_two_of_nonneg (-c) (by omega)
        omega
      omega
  · intro h
    have := tdiv_two_of_nonneg c (by omega)
    omega

theorem completes_of_measure {cfg : Cfg}
    (hc : 1 ≤ poolSize cfg.concurrency ∨ cfg.lines = []) (n : Nat) :
    ∀ s, Inv cfg s → measure cfg s ≤ n →
      ∃ as s', exec cfg s as = some s' ∧ s'.main = .done := by
  induction n with
  | zero =>
    intro s hi hm
    by_cases hd : s.main = .done
    · exact ⟨[], s, rfl, hd⟩
    · obtain ⟨a, s1, h1⟩ := hi.progress hc hd
      have := step_decreases h1
      omega
  | succ n ih =>
    intro s hi hm
    by_cases hd : s.main = .done
    · exact ⟨[], s, rfl, hd⟩
    · obtain ⟨a, s1, h1⟩ := hi.progress hc hd
      have hlt := step_decreases h1
      obtain ⟨as, s', he, hdone⟩ := ih s1 (step_inv hi h1) (by omega)
      refine ⟨a :: as, s', ?_, hdone⟩
      simp only [exec, h1]
      exact he

/-- C5, as stated, fails: with concurrency 1 and one input line there is a run
after which no goroutine can move although the main goroutine has not got past
its first send. -/
theorem stalled_run_not_done :
    exec stalledCfg State.init stalledSchedule = some stalledState ∧
    stalledState.main ≠ .done ∧
    ∀ a, step stalledCfg stalledState a = none := by
  refine ⟨by decide, by decide, ?_⟩
  intro a
  cases a <;> rfl

/-- C5, amended: when the concurrency level is at least 2 (each pool has a
worker) or the input list is empty, every run of the pipeline reaches Done:
a schedule is never longer than the measure of the initial state, in every
reachable state in which the main goroutine has not returned some goroutine can
move, and from every reachable state the run can be completed. This holds
whatever the probes return. -/
theorem pipeline_terminates (cfg : Cfg) (hc : 2 ≤ cfg.concurrency ∨ cfg.lines = [])
    (as : List Action) (s : State) (hs : exec cfg State.init as = some s) :
    as.length + measure cfg s ≤ measure cfg State.init ∧
    (s.main ≠ .done → Enabled cfg s) ∧
    ((∀ a, step cfg s a = none) → s.main = .done) ∧
    (∃ as' s', exec cfg s as' = some s' ∧ s'.main = .done) := by
  have hc' : 1 ≤ poolSize cfg.concurrency ∨ cfg.lines = [] :=
    hc.imp (one_le_poolSize_iff _).mpr id
  have hi : Inv cfg s := exec_inv (inv_init cfg) hs
  refine ⟨exec_length_le hs, hi.progress hc', ?_, completes_of_measure hc' _ s hi le_rfl⟩
  intro hnone
  by_contra hd
  obtain ⟨a, s', h⟩ := hi.progress hc' hd
  rw [hnone a] at h
  cases h

/-- C5 on the example scenario (c = 2): the run is complete after 29
transitions. -/
theorem pipeline_terminates_witness :
    exampleSchedule.length + measure exampleCfg exampleFinal ≤ measure exampleCfg State.init ∧
    exampleFinal.main = .done :=
  ⟨(pipeline_terminates exampleCfg (Or.inl (by decide)) exampleSchedule exampleFinal
      (by decide)).1, rfl⟩

/-! ### The stall at concurrency 0 or 1 -/

theorem tdiv_two_le_zero {c : Int} (hc : c = 0 ∨ c = 1) : c.tdiv 2 ≤ 0 := by
  rcases hc with rfl | rfl <;> decide

theorem stalled_init (cfg : Cfg) (h : String) (t : List String) :
    Stalled cfg h t State.init := by
  constructor <;> simp [State.init, Main.phase]

theorem stalled_step {cfg : Cfg} {h : String} {t : List String} {s s' : State} {a : Action}
    (hc : cfg.concurrency = 0 ∨ cfg.concurrency = 1) (hl : cfg.lines = h :: t)
    (hi : Inv cfg s) (hst : Stalled cfg h t s) (hs : step cfg s a = some s') :
    Stalled cfg h t s' := by
  obtain ⟨k1, k2, k3, k4, k5, k6⟩ := hst
  have hlim := tdiv_two_le_zero hc
  unfold step at hs
  split at hs
  · cases hs
  · cases a with
    | main =>
      simp only at hs
      unfold mainStep at hs
      split at hs <;> rename_i hm
      · have h0 := (hi.loopHttps _ hm).1
        rw [if_neg (by omega)] at hs
        simp only [Option.some.injEq] at hs
        subst hs
        exact ⟨k1, k2, k3, k4, k5, Or.inl (by simp [Main.phase])⟩
      · have h0 := (hi.loopHttp _ hm).1
        rw [if_neg (by omega)] at hs
        simp only [Option.some.injEq] at hs
        subst hs
        exact ⟨k1, k2, k3, k4, k5, Or.inl (by simp [Main.phase])⟩
      · simp only [Option.some.injEq] at hs
        subst hs
        exact ⟨k1, k2, k3, k4, k5, Or.inl (by simp [Main.phase])⟩
      · simp only [Option.some.injEq] at hs
        subst hs
        exact ⟨k1, k2, k3, k4, k5, Or.inl (by simp [Main.phase])⟩
      · simp only [Option.some.injEq] at hs
        subst hs
        exact ⟨k1, k2, k3, k4, k5, Or.inr (Or.inl (by rw [hl]))⟩
      · rw [hm] at k6
        simp [Main.phase] at k6
      · simp only [Option.some.injEq] at hs
        subst hs
        rw [hm] at k6
        simp only [Main.phase, lt_self_iff_false, Main.scan.injEq, List.cons.injEq,
          reduceCtorEq, or_false, false_or] at k6
        obtain ⟨rfl, rfl⟩ := k6
        exact ⟨k1, k2, k3, k4, k5, Or.inr (Or.inr rfl)⟩
      · split at hs
        · simp only [Option.some.injEq] at hs
          subst hs
          exact ⟨k1, k2, k3, k4, k5, k6⟩
        · cases hs
      · rw [hm] at k6
        simp [Main.phase] at k6
      · rw [hm] at k6
        simp [Main.phase] at k6
      · cases hs
    | https i =>
      simp only at hs
      unfold httpsStep at hs
      rw [k1] at hs
      simp at hs
    | forward i j =>
      simp only at hs
      unfold forwardStep at hs
      rw [k1] at hs
      simp at hs
    | http j =>
      simp only at hs
      unfold httpStep at hs
      rw [k2] at hs
      simp at hs
    | closeHttp =>
      simp only at hs
      unfold closeHttpStep at hs
      split at hs
      · split at hs
        · simp only [Option.some.injEq] at hs
          subst hs
          exact ⟨k1, k2, k3, k4, k5, k6⟩
        · cases hs
      · split at hs <;> simp only [Option.some.injEq] at hs <;> subst hs <;>
          exact ⟨k1, k2, k3, k4, k5, k6⟩
      · cases hs
    | output =>
      simp only at hs
      unfold outputStep at hs
      split at hs
      · split at hs
        · split at hs <;> simp only [Option.some.injEq] at hs <;> subst hs <;>
            exact ⟨k1, k2, k3, k4, k5, k6⟩
        · cases hs
      · cases hs
    | closeOutput =>
      simp only at hs
      unfold closeOutputStep at hs
      split at hs
      · split at hs
        · simp only [Option.some.injEq] at hs
          subst hs
          exact ⟨k1, k2, k3, k4, k5, k6⟩
        · cases hs
      · split at hs <;> simp only [Option.some.injEq] at hs <;> subst hs <;>
          exact ⟨k1, k2, k3, k4, k5, k6⟩
      · cases hs

theorem stalled_exec {cfg : Cfg} {h : String} {t : List String} {s s' : State}
    {as : List Action} (hc : cfg.concurrency = 0 ∨ cfg.concurrency = 1)
    (hl : cfg.lines = h :: t) (hi : Inv cfg s) (hst : Stalled cfg h t s)
    (hs : exec cfg s as = some s') : Stalled cfg h t s' := by
  induction as generalizing s with
  | nil =>
    simp only [exec, Option.some.injEq] at hs
    subst hs
    exact hst
  | cons a as ih =>
    simp only [exec] at hs
    split at hs
    · rename_i s1 h1
      exact ih (step_inv hi h1) (stalled_step hc hl hi hst h1) hs
    · cases hs

/-- With no HTTPS worker, a transition leaves the main goroutine blocked in its
send. -/
theorem send_stays {cfg : Cfg} {s s' : State} {a : Action} {d : String} {r : List String}
    (hw : s.https = []) (hm : s.main = .send d r) (hs : step cfg s a = some s') :
    s'.main = .send d r := by
  unfold step at hs
  split at hs
  · cases hs
  · cases a with
    | main =>
      simp only at hs
      unfold mainStep at hs
      rw [hm] at hs
      simp only at hs
      split at hs
      · simp only [Option.some.injEq] at hs
        subst hs
        exact hm
      · cases hs
    | https i =>
      simp only at hs
      unfold httpsStep at hs
      rw [hw] at hs
      simp at hs
    | forward i j =>
      simp only at hs
      unfold forwardStep at hs
      rw [hw] at hs
      simp at hs
    | http j =>
      simp only at hs
      unfold httpStep at hs
      split at hs
      · split at hs
        · split at hs <;> simp only [Option.some.injEq] at hs <;> subst hs <;> exact hm
        · cases hs
      · split at hs <;> simp only [Option.some.injEq] at hs <;> subst hs <;> exact hm
      · split at hs
        · simp only [Option.some.injEq] at hs
          subst hs
          exact hm
        · split at hs
          · simp only [Option.some.injEq] at hs
            subst hs
            exact hm
          · cases hs
      · cases hs
      · cases hs
    | closeHttp =>
      simp only at hs
      unfold closeHttpStep at hs
      split at hs
      · split at hs
        · simp only [Option.some.injEq] at hs
          subst hs
          exact hm
        · cases hs
      · split at hs <;> simp only [Option.some.injEq] at hs <;> subst hs <;> exact hm
      · cases hs
    | output =>
      simp only at hs
      unfold outputStep at hs
      split at hs
      · split at hs
        · split at hs <;> simp only [Option.some.injEq] at hs <;> subst hs <;> exact hm
        · cases hs
      · cases hs
    | closeOutput =>
      simp only at hs
      unfold closeOutputStep at hs
      split at hs
      · split at hs
        · simp only [Option.some.injEq] at hs
          subst hs
          exact hm
        · cases hs
      · split at hs <;> simp only [Option.some.injEq] at hs <;> subst hs <;> exact hm
      · cases hs


/-- C9: with concurrency 0 or 1 and a non-empty input, in every reachable state
both pools are empty, nothing has been handed to a worker or to the output
worker, and the main goroutine is at or before the send of the first hostname,
so it never reaches Done; once it is blocked in that send it stays there;
every schedule has bounded length, and a state in which nothing can move has
the main goroutine blocked in that first send. -/
theorem stalls_without_workers (cfg : Cfg) (h : String) (t : List String)
    (hc : cfg.concurrency = 0 ∨ cfg.concurrency = 1) (hl : cfg.lines = h :: t)
    (as : List Action) (s : State) (hs : exec cfg State.init as = some s) :
    poolSize cfg.concurrency = 0 ∧ s.https = [] ∧ s.http = [] ∧
    s.submitted = [] ∧ s.received = [] ∧
    (s.main.phase < 5 ∨ s.main = .scan (h :: t) ∨ s.main = .send (cfg.lower h) t) ∧
    s.main ≠ .done ∧
    (∀ a s', s.main = .send (cfg.lower h) t → step cfg s a = some s' →
      s'.main = .send (cfg.lower h) t) ∧
    as.length + measure cfg s ≤ measure cfg State.init ∧
    ((∀ a, step cfg s a = none) → s.main = .send (cfg.lower h) t) := by
  have hi : Inv cfg s := exec_inv (inv_init cfg) hs
  have hst := stalled_exec hc hl (inv_init cfg) (stalled_init cfg h t) hs
  have hnd : s.main ≠ .done := by
    intro hd
    have := hst.mainAt
    rw [hd] at this
    simp [Main.phase] at this
  have hpool : poolSize cfg.concurrency = 0 := by
    have := tdiv_two_le_zero hc
    unfold poolSize
    omega
  refine ⟨hpool, hst.noHttps, hst.noHttp, hst.noSubmitted, hst.noReceived, hst.mainAt, hnd,
    fun a s' hm hstep => send_stays hst.noHttps hm hstep, exec_length_le hs, ?_⟩
  intro hnone
  rcases hst.mainAt with hp | hp | hp
  · exfalso
    obtain ⟨a, s', h'⟩ := hi.progress_early (Or.inl hp) hnd
    rw [hnone a] at h'
    cases h'
  · exfalso
    obtain ⟨a, s', h'⟩ := hi.progress_early (Or.inr (Or.inl ⟨_, hp⟩)) hnd
    rw [hnone a] at h'
    cases h'
  · exact hp

/-- C9 on the run with concurrency 1: the schedule ends with the main goroutine
blocked in the send of `a.example` and nothing delivered. -/
theorem stalls_without_workers_witness :
    stalledState.received = [] ∧ stalledState.main ≠ .done ∧
    stalledSchedule.length + measure stalledCfg stalledState ≤ measure stalledCfg State.init :=
  ⟨(stalls_without_workers stalledCfg "a.example" [] (Or.inr rfl) rfl stalledSchedule
      stalledState (by decide)).2.2.2.2.1,
   (stalls_without_workers stalledCfg "a.example" [] (Or.inr rfl) rfl stalledSchedule
      stalledState (by decide)).2.2.2.2.2.2.1,
   (stalls_without_workers stalledCfg "a.example" [] (Or.inr rfl) rfl stalledSchedule
      stalledState (by decide)).2.2.2.2.2.2.2.2.1⟩

end Knocknock
